import Mathlib

/-!
Verification of the event-stream → HTML rendering engine (`src/html.rs` of
pulldown-cmark).

The engine is shallowly embedded:
* the event/tag data model is transcribed from the parser's types as consumed
  by `html.rs` (the parser itself is out of scope);
* the rendering engine is given twice, once specialized to the in-memory
  `String` sink (whose writes always succeed, as `StringWrap::write_str`
  always returns `Ok`), as a pure state-passing function that evaluates by
  `decide`/`rfl`, and once generically over an abstract, possibly failing
  output sink (namespace `Gen`), mirroring the `StrWrite` trait.  The two are
  proven to agree on the `String` sink (`run_string_eq`).
* the main render loop `run` consumes at least one event per iteration, so a
  fuel parameter bounded below by the stream length makes the recursion
  structural without changing the semantics; `push_html` supplies
  `events.length` as fuel.
-/

namespace PulldownHtml

/-- Column alignment of a table, from `parse::Alignment` as consumed by the
renderer (`None`, `Left`, `Center`, `Right`). -/
inductive Alignment where
  | None
  | Left
  | Center
  | Right
deriving DecidableEq, Repr

/-- Modelled from the spec: `parse::LinkType` is declared in the parser, which
is not under `src/`; the renderer only distinguishes email-type links (which
get a `mailto:` scheme marker) from every other kind. -/
inductive LinkType where
  | Email
  | Other
deriving DecidableEq, Repr

/-- Which section of a table is currently open (`TableState` in `html.rs`). -/
inductive TableState where
  | Head
  | Body
deriving DecidableEq, Repr

/-- Structural (paired) construct, from `parse::Tag` as consumed by the
renderer.  Payloads: header level is an `i32` (modelled as `Int`), the ordered
list start is a `usize` (modelled as `Nat`), strings are borrowed `CowStr`s
(modelled as `String`). -/
inductive Tag where
  | Paragraph
  | Rule
  | Header (level : Int)
  | Table (alignments : List Alignment)
  | TableHead
  | TableRow
  | TableCell
  | BlockQuote
  | CodeBlock (info : String)
  | List (startNum : Option Nat)
  | Item
  | Emphasis
  | Strong
  | Strikethrough
  | Link (kind : LinkType) (dest : String) (title : String)
  | Image (kind : LinkType) (dest : String) (title : String)
  | FootnoteDefinition (name : String)
  | HtmlBlock
deriving DecidableEq, Repr

/-- One unit of the input stream, from `parse::Event` as consumed by the
renderer. -/
inductive Event where
  | Start (tag : Tag)
  | End (tag : Tag)
  | Text (text : String)
  | Code (text : String)
  | Html (html : String)
  | InlineHtml (html : String)
  | SoftBreak
  | HardBreak
  | FootnoteReference (name : String)
  | TaskListMarker (checked : Bool)
deriving DecidableEq, Repr

/-- Modelled from the spec: `escape::escape_html` is not under `src/`; per §6
it escapes the characters that are structurally significant in element
content (the markup delimiters, the ampersand and the double quote), leaving
every other character unchanged. -/
def escapeHtmlChar (c : Char) : List Char :=
  if c = '<' then ['&', 'l', 't', ';']
  else if c = '>' then ['&', 'g', 't', ';']
  else if c = '&' then ['&', 'a', 'm', 'p', ';']
  else if c = '\"' then ['&', 'q', 'u', 'o', 't', ';']
  else [c]

/-- Modelled from the spec: character-wise HTML content escaping (see
`escapeHtmlChar`). -/
def escape_html_list : List Char → List Char
  | [] => []
  | c :: cs => escapeHtmlChar c ++ escape_html_list cs

/-- Modelled from the spec: `escape::escape_html` on a `String`. -/
def escape_html (s : String) : String :=
  String.mk (escape_html_list s.data)

/-- Hex digit for a nibble. -/
def hexDigit (n : Nat) : Char :=
  if n < 10 then Char.ofNat (48 + n) else Char.ofNat (55 + n % 16)

/-- Modelled from the spec: `escape::escape_href` is not under `src/`; per §6
it escapes characters unsafe inside a quoted attribute value referencing a
URL: the ampersand becomes an entity, characters outside the URL-safe set are
percent-encoded, everything else passes through. -/
def escapeHrefChar (c : Char) : List Char :=
  if c = '&' then ['&', 'a', 'm', 'p', ';']
  else if c.isAlphanum then [c]
  else if "-_.~!#$%()*+,/:;=?@[]".data.contains c then [c]
  else ['%', hexDigit (c.toNat / 16 % 16), hexDigit (c.toNat % 16)]

/-- Modelled from the spec: character-wise URL/attribute escaping (see
`escapeHrefChar`). -/
def escape_href_list : List Char → List Char
  | [] => []
  | c :: cs => escapeHrefChar c ++ escape_href_list cs

/-- Modelled from the spec: `escape::escape_href` on a `String`. -/
def escape_href (s : String) : String :=
  String.mk (escape_href_list s.data)

/-- `info.split(' ').next().unwrap()` from the `CodeBlock` arm of
`start_tag`: the prefix of `info` up to (excluding) the first space
character. -/
def first_space_token (info : String) : String :=
  String.mk (info.data.takeWhile (fun c => c != ' '))

/-- `self.numbers.entry(name).or_insert(len)` where
`len = self.numbers.len() + 1`: look the footnote name up in the numbering
table; if absent, append it with the next sequential number.  The `HashMap`
is modelled as an insertion-ordered association list — the renderer only ever
calls `len` and `entry`, never iterates the map. -/
def lookupOrInsert (name : String) (numbers : List (String × Nat)) :
    Nat × List (String × Nat) :=
  let len := numbers.length + 1
  match numbers.lookup name with
  | some k => (k, numbers)
  | none => (len, numbers ++ [(name, len)])

/-- The mutable state of `HtmlWriter` over a writer of type `σ`; the event
iterator is passed separately as an explicit list.  The pure engine below
instantiates `σ := String` (the `StringWrap` in-memory sink); the generic
engine in namespace `Gen` keeps `σ` abstract. -/
structure HtmlState (σ : Type) where
  writer : σ
  end_newline : Bool
  table_state : TableState
  table_alignments : List Alignment
  table_cell_index : Nat
  numbers : List (String × Nat)
deriving DecidableEq, Repr

/-- `text.ends_with('\n')` / last-written-byte-is-newline check. -/
def ends_nl (s : String) : Bool :=
  decide (s.data.getLast? = some '\n')

/-- `HtmlWriter::write_newline` at the `String` sink: sets `end_newline` and
writes `"\n"`. -/
def write_newline (st : HtmlState String) : HtmlState String :=
  { st with writer := st.writer ++ "\n", end_newline := true }

/-- `HtmlWriter::write` at the `String` sink: writes `s`; then either writes a
newline, or (for nonempty `s`) records whether `s` ended with a newline. -/
def write (st : HtmlState String) (s : String) (wantNewline : Bool) :
    HtmlState String :=
  let st := { st with writer := st.writer ++ s }
  if wantNewline then write_newline st
  else if s.isEmpty then st
  else { st with end_newline := ends_nl s }

/-- A write that goes directly through the writer (the
`escape_html(StrWriteMutRef(&mut self.writer), …)` and `write!` call sites),
leaving `end_newline` untouched. -/
def write_raw (st : HtmlState String) (s : String) : HtmlState String :=
  { st with writer := st.writer ++ s }

/-- `HtmlWriter::fresh_line`: write a newline unless the output already ends
at a line boundary. -/
def fresh_line (st : HtmlState String) : HtmlState String :=
  if st.end_newline then st else write_newline st

/-- `HtmlWriter::raw_text` at the `String` sink: consume events from the
shared stream, flattening them to escaped plain text, until the `End` that
matches the caller's `Start` is consumed at nesting depth zero; returns the
remaining stream.  `nest` is the `i32` nesting counter (initially `0`). -/
def raw_text : List Event → Int → HtmlState String → List Event × HtmlState String
  | [], _, st => ([], st)
  | e :: rest, nest, st =>
    match e with
    | .Start _ => raw_text rest (nest + 1) st
    | .End _ => if nest = 0 then (rest, st) else raw_text rest (nest - 1) st
    | .Html _ => raw_text rest nest st
    | .InlineHtml text | .Code text | .Text text =>
      let st := write_raw st (escape_html text)
      raw_text rest nest { st with end_newline := ends_nl text }
    | .SoftBreak | .HardBreak => raw_text rest nest (write st " " false)
    | .FootnoteReference name =>
      let p := lookupOrInsert name st.numbers
      let st := { st with numbers := p.2 }
      raw_text rest nest (write_raw st ("[" ++ Nat.repr p.1 ++ "]"))
    | .TaskListMarker true => raw_text rest nest (write st "[x]" false)
    | .TaskListMarker false => raw_text rest nest (write st "[ ]" false)

/-- `HtmlWriter::start_tag` at the `String` sink.  Takes and returns the
event stream because the `Image` arm delegates to `raw_text`, which consumes
events; every other arm returns the stream unchanged. -/
def start_tag (tag : Tag) (evts : List Event) (st : HtmlState String) :
    List Event × HtmlState String :=
  match tag with
  | .Paragraph =>
    (evts, write (fresh_line st) "<p>" false)
  | .Rule =>
    (evts, write (fresh_line st) "<hr />" true)
  | .Header level =>
    let st := fresh_line st
    let st := { st with end_newline := false }
    (evts, write_raw st ("<h" ++ Int.repr level ++ ">"))
  | .Table alignments =>
    let st := { st with table_alignments := alignments }
    (evts, write st "<table>" false)
  | .TableHead =>
    let st := { st with table_state := .Head, table_cell_index := 0 }
    (evts, write st "<thead><tr>" false)
  | .TableRow =>
    let st := { st with table_cell_index := 0 }
    (evts, write st "<tr>" false)
  | .TableCell =>
    let st := match st.table_state with
      | .Head => write st "<th" false
      | .Body => write st "<td" false
    let st := match st.table_alignments[st.table_cell_index]? with
      | some .Left => write st " align=\"left\"" false
      | some .Center => write st " align=\"center\"" false
      | some .Right => write st " align=\"right\"" false
      | _ => st
    (evts, write st ">" false)
  | .BlockQuote =>
    (evts, write (fresh_line st) "<blockquote>" true)
  | .CodeBlock info =>
    let st := fresh_line st
    let lang := first_space_token info
    if lang.isEmpty then (evts, write st "<pre><code>" false)
    else
      let st := write st "<pre><code class=\"language-" false
      let st := write_raw st (escape_html lang)
      (evts, write st "\">" false)
  | .List (some startNum) =>
    if startNum = 1 then (evts, write (fresh_line st) "<ol>" true)
    else
      let st := write (fresh_line st) "<ol start=\"" false
      let st := write_raw st (Nat.repr startNum)
      (evts, write st "\">" true)
  | .List none =>
    (evts, write (fresh_line st) "<ul>" true)
  | .Item =>
    (evts, write (fresh_line st) "<li>" false)
  | .Emphasis => (evts, write st "<em>" false)
  | .Strong => (evts, write st "<strong>" false)
  | .Strikethrough => (evts, write st "<del>" false)
  | .Link .Email dest title =>
    let st := write st "<a href=\"mailto:" false
    let st := write_raw st (escape_href dest)
    let st :=
      if title.isEmpty then st
      else write_raw (write st "\" title=\"" false) (escape_html title)
    (evts, write st "\">" false)
  | .Link .Other dest title =>
    let st := write st "<a href=\"" false
    let st := write_raw st (escape_href dest)
    let st :=
      if title.isEmpty then st
      else write_raw (write st "\" title=\"" false) (escape_html title)
    (evts, write st "\">" false)
  | .Image _ dest title =>
    let st := write st "<img src=\"" false
    let st := write_raw st (escape_href dest)
    let st := write st "\" alt=\"" false
    let p := raw_text evts 0 st
    let st := p.2
    let st :=
      if title.isEmpty then st
      else write_raw (write st "\" title=\"" false) (escape_html title)
    (p.1, write st "\" />" false)
  | .FootnoteDefinition name =>
    let st := fresh_line st
    let q := lookupOrInsert name st.numbers
    let st := write st "<div class=\"footnote-definition\" id=\"" false
    let st := write_raw st (escape_html name)
    let st := write st "\"><sup class=\"footnote-definition-label\">" false
    let st := { st with numbers := q.2 }
    let st := write_raw st (Nat.repr q.1)
    (evts, write st "</sup>" false)
  | .HtmlBlock => (evts, st)

/-- `HtmlWriter::end_tag` at the `String` sink. -/
def end_tag (tag : Tag) (st : HtmlState String) : HtmlState String :=
  match tag with
  | .Paragraph => write st "</p>" true
  | .Rule => st
  | .Header level =>
    let st := write_raw st ("</h" ++ Int.repr level)
    write st ">" true
  | .Table _ => write st "</tbody></table>" true
  | .TableHead =>
    let st := write st "</tr></thead><tbody>" true
    { st with table_state := .Body }
  | .TableRow => write st "</tr>" true
  | .TableCell =>
    let st := match st.table_state with
      | .Head => write st "</th>" false
      | .Body => write st "</td>" false
    { st with table_cell_index := st.table_cell_index + 1 }
  | .BlockQuote => write st "</blockquote>" true
  | .CodeBlock _ => write st "</code></pre>" true
  | .List (some _) => write st "</ol>" true
  | .List none => write st "</ul>" true
  | .Item => write st "</li>" true
  | .Emphasis => write st "</em>" false
  | .Strong => write st "</strong>" false
  | .Strikethrough => write st "</del>" false
  | .Link _ _ _ => write st "</a>" false
  | .Image _ _ _ => st
  | .FootnoteDefinition _ => write st "</div>" true
  | .HtmlBlock => st

/-- `HtmlWriter::run` at the `String` sink: the main render loop.  The `fuel`
parameter makes the recursion structural; each iteration consumes at least
one event, so any fuel `≥ events.length` yields the full run (the callers
below pass exactly `events.length`). -/
def run : Nat → List Event → HtmlState String → HtmlState String
  | 0, _, st => st
  | _, [], st => st
  | fuel + 1, e :: rest, st =>
    match e with
    | .Start tag =>
      let p := start_tag tag rest st
      run fuel p.1 p.2
    | .End tag => run fuel rest (end_tag tag st)
    | .Text text =>
      let st := write_raw st (escape_html text)
      run fuel rest { st with end_newline := ends_nl text }
    | .Code text =>
      let st := write st "<code>" false
      let st := write_raw st (escape_html text)
      let st := write st "</code>" false
      run fuel rest { st with end_newline := false }
    | .Html html | .InlineHtml html => run fuel rest (write st html false)
    | .SoftBreak => run fuel rest (write_newline st)
    | .HardBreak => run fuel rest (write st "<br />" true)
    | .FootnoteReference name =>
      let st := write st "<sup class=\"footnote-reference\"><a href=\"#" false
      let st := write_raw st (escape_html name)
      let st := write st "\">" false
      let p := lookupOrInsert name st.numbers
      let st := { st with numbers := p.2 }
      let st := write_raw st (Nat.repr p.1)
      let st := write st "</a></sup>" false
      run fuel rest st
    | .TaskListMarker true =>
      run fuel rest
        (write st "<input disabled=\"\" type=\"checkbox\" checked=\"\"/>" true)
    | .TaskListMarker false =>
      run fuel rest (write st "<input disabled=\"\" type=\"checkbox\"/>" true)

/-- The fresh render state built by `write_html`, over an initial buffer
content `w`. -/
def init_state (w : String) : HtmlState String :=
  { writer := w
    end_newline := true
    table_state := .Head
    table_alignments := []
    table_cell_index := 0
    numbers := [] }

/-- `write_html` at the `String` sink: run the engine over a fresh state and
return the final state (whose `writer` field holds the output buffer). -/
def write_html_state (w : String) (evts : List Event) : HtmlState String :=
  run evts.length evts (init_state w)

/-- `html::push_html`: append the rendered HTML for `evts` to the buffer
`s`. -/
def push_html (s : String) (evts : List Event) : String :=
  (write_html_state s evts).writer

/-- The per-event state effect of the raw-text flattener on the events it
merely flattens: identical to the corresponding arms of `raw_text`, with the
`Start`/`End` bookkeeping (which writes nothing) as the identity.  `raw_text`
over a balanced nested segment is a fold of this step function
(`raw_text_flattens` below). -/
def flat_step (st : HtmlState String) (e : Event) : HtmlState String :=
  match e with
  | .Start _ | .End _ | .Html _ => st
  | .InlineHtml text | .Code text | .Text text =>
    { write_raw st (escape_html text) with end_newline := ends_nl text }
  | .SoftBreak | .HardBreak => write st " " false
  | .FootnoteReference name =>
    let p := lookupOrInsert name st.numbers
    write_raw { st with numbers := p.2 } ("[" ++ Nat.repr p.1 ++ "]")
  | .TaskListMarker true => write st "[x]" false
  | .TaskListMarker false => write st "[ ]" false

/-- Whether an event is a structural boundary (`Start` or `End`). -/
def is_structural : Event → Bool
  | .Start _ => true
  | .End _ => true
  | _ => false

/-- Well-formed (properly paired) event segments: every `Start` is matched by
a later `End` with correct nesting.  This is the §3 stream contract for the
content of a structural construct. -/
inductive Balanced : List Event → Prop where
  | nil : Balanced []
  | atom {e : Event} {rest : List Event} :
      is_structural e = false → Balanced rest → Balanced (e :: rest)
  | nest {t t' : Tag} {inner rest : List Event} :
      Balanced inner → Balanced rest →
      Balanced (Event.Start t :: (inner ++ Event.End t' :: rest))

/-- The successive values taken by the `nest` counter of `raw_text` when run
on a given stream from a given initial value, mirroring exactly the counter
updates of the source loop (increment on `Start`; stop on `End` at zero, else
decrement; unchanged otherwise). -/
def raw_text_nests : List Event → Int → List Int
  | [], n => [n]
  | e :: rest, n =>
    n ::
      match e with
      | .Start _ => raw_text_nests rest (n + 1)
      | .End _ => if n = 0 then [] else raw_text_nests rest (n - 1)
      | _ => raw_text_nests rest n

/-- The `end_newline` freshness invariant: once anything has been emitted,
the flag holds exactly when the most recently emitted character is a
newline. -/
def newline_invariant (st : HtmlState String) : Prop :=
  st.writer ≠ "" → st.end_newline = ends_nl st.writer

/-- The footnote-numbering table invariant: the numbers stored in the table
are exactly `1, 2, …, n` in insertion order, i.e. each name's number is the
count of distinct names first seen no later than it. -/
def numbers_wellformed (numbers : List (String × Nat)) : Prop :=
  numbers.map Prod.snd = List.range' 1 numbers.length

/-- A string free of the `<` tag-opening delimiter (hence containing no
markup tags). -/
def no_tag_open (s : String) : Prop :=
  ∀ c ∈ s.data, c ≠ '<'

/-- The first whitespace-delimited token of a string, as the words of the
claim about `CodeBlock` info strings would have it: skip leading whitespace,
then take until the next whitespace character.  (The code instead uses
`first_space_token`, which splits on the space character only.) -/
def first_whitespace_token (s : String) : String :=
  String.mk ((s.data.dropWhile Char.isWhitespace).takeWhile
    (fun c => !c.isWhitespace))

/-- Streams containing no `Text` event with an empty payload (the carve-out
forced by the `end_newline` counterexample: a `Text("")` event emits nothing
yet still overwrites the freshness flag). -/
def no_empty_text (evts : List Event) : Prop :=
  ∀ e ∈ evts, e ≠ Event.Text ""

namespace Gen

/-- The `StrWrite` capability: appending text to a writer of type `σ` may
fail with an error of type `ε` (`io::Error` for byte streams; `String`
writers never fail). -/
structure Sink (σ ε : Type) where
  write_str : σ → String → Except ε σ

/-- Propagation of a write failure with `?` (early return on `Err`). -/
def wbind : Except ε α → (α → Except ε β) → Except ε β
  | .error e, _ => .error e
  | .ok a, f => f a

/-- `HtmlWriter::write_newline` over an abstract sink. -/
def write_newline (S : Sink σ ε) (st : HtmlState σ) : Except ε (HtmlState σ) :=
  wbind (S.write_str st.writer "\n") fun w =>
    .ok { st with writer := w, end_newline := true }

/-- `HtmlWriter::write` over an abstract sink. -/
def write (S : Sink σ ε) (st : HtmlState σ) (s : String) (wantNewline : Bool) :
    Except ε (HtmlState σ) :=
  wbind (S.write_str st.writer s) fun w =>
    let st := { st with writer := w }
    if wantNewline then write_newline S st
    else if s.isEmpty then .ok st
    else .ok { st with end_newline := ends_nl s }

/-- A direct write through the sink (escape-collaborator and `write!` call
sites), leaving `end_newline` untouched. -/
def write_raw (S : Sink σ ε) (st : HtmlState σ) (s : String) :
    Except ε (HtmlState σ) :=
  wbind (S.write_str st.writer s) fun w => .ok { st with writer := w }

/-- `HtmlWriter::fresh_line` over an abstract sink. -/
def fresh_line (S : Sink σ ε) (st : HtmlState σ) : Except ε (HtmlState σ) :=
  if st.end_newline then .ok st else write_newline S st

/-- `HtmlWriter::raw_text` over an abstract sink. -/
def raw_text (S : Sink σ ε) :
    List Event → Int → HtmlState σ → Except ε (List Event × HtmlState σ)
  | [], _, st => .ok ([], st)
  | e :: rest, nest, st =>
    match e with
    | .Start _ => raw_text S rest (nest + 1) st
    | .End _ =>
      if nest = 0 then .ok (rest, st) else raw_text S rest (nest - 1) st
    | .Html _ => raw_text S rest nest st
    | .InlineHtml text | .Code text | .Text text =>
      wbind (write_raw S st (escape_html text)) fun st =>
        raw_text S rest nest { st with end_newline := ends_nl text }
    | .SoftBreak | .HardBreak =>
      wbind (write S st " " false) fun st => raw_text S rest nest st
    | .FootnoteReference name =>
      let p := lookupOrInsert name st.numbers
      wbind (write_raw S { st with numbers := p.2 }
          ("[" ++ Nat.repr p.1 ++ "]")) fun st =>
        raw_text S rest nest st
    | .TaskListMarker true =>
      wbind (write S st "[x]" false) fun st => raw_text S rest nest st
    | .TaskListMarker false =>
      wbind (write S st "[ ]" false) fun st => raw_text S rest nest st

/-- `HtmlWriter::start_tag` over an abstract sink. -/
def start_tag (S : Sink σ ε) (tag : Tag) (evts : List Event)
    (st : HtmlState σ) : Except ε (List Event × HtmlState σ) :=
  match tag with
  | .Paragraph =>
    wbind (fresh_line S st) fun st =>
      wbind (write S st "<p>" false) fun st => .ok (evts, st)
  | .Rule =>
    wbind (fresh_line S st) fun st =>
      wbind (write S st "<hr />" true) fun st => .ok (evts, st)
  | .Header level =>
    wbind (fresh_line S st) fun st =>
      wbind (write_raw S { st with end_newline := false }
          ("<h" ++ Int.repr level ++ ">")) fun st =>
        .ok (evts, st)
  | .Table alignments =>
    wbind (write S { st with table_alignments := alignments } "<table>" false)
      fun st => .ok (evts, st)
  | .TableHead =>
    wbind (write S { st with table_state := .Head, table_cell_index := 0 }
        "<thead><tr>" false) fun st =>
      .ok (evts, st)
  | .TableRow =>
    wbind (write S { st with table_cell_index := 0 } "<tr>" false) fun st =>
      .ok (evts, st)
  | .TableCell =>
    wbind (match st.table_state with
      | .Head => write S st "<th" false
      | .Body => write S st "<td" false) fun st =>
    wbind (match st.table_alignments[st.table_cell_index]? with
      | some .Left => write S st " align=\"left\"" false
      | some .Center => write S st " align=\"center\"" false
      | some .Right => write S st " align=\"right\"" false
      | _ => .ok st) fun st =>
    wbind (write S st ">" false) fun st => .ok (evts, st)
  | .BlockQuote =>
    wbind (fresh_line S st) fun st =>
      wbind (write S st "<blockquote>" true) fun st => .ok (evts, st)
  | .CodeBlock info =>
    wbind (fresh_line S st) fun st =>
      let lang := first_space_token info
      if lang.isEmpty then
        wbind (write S st "<pre><code>" false) fun st => .ok (evts, st)
      else
        wbind (write S st "<pre><code class=\"language-" false) fun st =>
        wbind (write_raw S st (escape_html lang)) fun st =>
        wbind (write S st "\">" false) fun st => .ok (evts, st)
  | .List (some startNum) =>
    if startNum = 1 then
      wbind (fresh_line S st) fun st =>
        wbind (write S st "<ol>" true) fun st => .ok (evts, st)
    else
      wbind (fresh_line S st) fun st =>
        wbind (write S st "<ol start=\"" false) fun st =>
        wbind (write_raw S st (Nat.repr startNum)) fun st =>
        wbind (write S st "\">" true) fun st => .ok (evts, st)
  | .List none =>
    wbind (fresh_line S st) fun st =>
      wbind (write S st "<ul>" true) fun st => .ok (evts, st)
  | .Item =>
    wbind (fresh_line S st) fun st =>
      wbind (write S st "<li>" false) fun st => .ok (evts, st)
  | .Emphasis => wbind (write S st "<em>" false) fun st => .ok (evts, st)
  | .Strong => wbind (write S st "<strong>" false) fun st => .ok (evts, st)
  | .Strikethrough =>
    wbind (write S st "<del>" false) fun st => .ok (evts, st)
  | .Link .Email dest title =>
    wbind (write S st "<a href=\"mailto:" false) fun st =>
    wbind (write_raw S st (escape_href dest)) fun st =>
    wbind (if title.isEmpty then .ok st
      else
        wbind (write S st "\" title=\"" false) fun st =>
          write_raw S st (escape_html title)) fun st =>
    wbind (write S st "\">" false) fun st => .ok (evts, st)
  | .Link .Other dest title =>
    wbind (write S st "<a href=\"" false) fun st =>
    wbind (write_raw S st (escape_href dest)) fun st =>
    wbind (if title.isEmpty then .ok st
      else
        wbind (write S st "\" title=\"" false) fun st =>
          write_raw S st (escape_html title)) fun st =>
    wbind (write S st "\">" false) fun st => .ok (evts, st)
  | .Image _ dest title =>
    wbind (write S st "<img src=\"" false) fun st =>
    wbind (write_raw S st (escape_href dest)) fun st =>
    wbind (write S st "\" alt=\"" false) fun st =>
    wbind (raw_text S evts 0 st) fun p =>
    wbind (if title.isEmpty then .ok p.2
      else
        wbind (write S p.2 "\" title=\"" false) fun st =>
          write_raw S st (escape_html title)) fun st =>
    wbind (write S st "\" />" false) fun st => .ok (p.1, st)
  | .FootnoteDefinition name =>
    wbind (fresh_line S st) fun st =>
      let q := lookupOrInsert name st.numbers
      wbind (write S st "<div class=\"footnote-definition\" id=\"" false)
        fun st =>
      wbind (write_raw S st (escape_html name)) fun st =>
      wbind (write S st "\"><sup class=\"footnote-definition-label\">" false)
        fun st =>
      wbind (write_raw S { st with numbers := q.2 } (Nat.repr q.1)) fun st =>
      wbind (write S st "</sup>" false) fun st => .ok (evts, st)
  | .HtmlBlock => .ok (evts, st)

/-- `HtmlWriter::end_tag` over an abstract sink. -/
def end_tag (S : Sink σ ε) (tag : Tag) (st : HtmlState σ) :
    Except ε (HtmlState σ) :=
  match tag with
  | .Paragraph => write S st "</p>" true
  | .Rule => .ok st
  | .Header level =>
    wbind (write_raw S st ("</h" ++ Int.repr level)) fun st =>
      write S st ">" true
  | .Table _ => write S st "</tbody></table>" true
  | .TableHead =>
    wbind (write S st "</tr></thead><tbody>" true) fun st =>
      .ok { st with table_state := .Body }
  | .TableRow => write S st "</tr>" true
  | .TableCell =>
    wbind (match st.table_state with
      | .Head => write S st "</th>" false
      | .Body => write S st "</td>" false) fun st =>
      .ok { st with table_cell_index := st.table_cell_index + 1 }
  | .BlockQuote => write S st "</blockquote>" true
  | .CodeBlock _ => write S st "</code></pre>" true
  | .List (some _) => write S st "</ol>" true
  | .List none => write S st "</ul>" true
  | .Item => write S st "</li>" true
  | .Emphasis => write S st "</em>" false
  | .Strong => write S st "</strong>" false
  | .Strikethrough => write S st "</del>" false
  | .Link _ _ _ => write S st "</a>" false
  | .Image _ _ _ => .ok st
  | .FootnoteDefinition _ => write S st "</div>" true
  | .HtmlBlock => .ok st

/-- `HtmlWriter::run` over an abstract sink (fueled as in the pure
engine). -/
def run (S : Sink σ ε) : Nat → List Event → HtmlState σ → Except ε (HtmlState σ)
  | 0, _, st => .ok st
  | _, [], st => .ok st
  | fuel + 1, e :: rest, st =>
    match e with
    | .Start tag =>
      wbind (start_tag S tag rest st) fun p => run S fuel p.1 p.2
    | .End tag => wbind (end_tag S tag st) fun st => run S fuel rest st
    | .Text text =>
      wbind (write_raw S st (escape_html text)) fun st =>
        run S fuel rest { st with end_newline := ends_nl text }
    | .Code text =>
      wbind (write S st "<code>" false) fun st =>
      wbind (write_raw S st (escape_html text)) fun st =>
      wbind (write S st "</code>" false) fun st =>
        run S fuel rest { st with end_newline := false }
    | .Html html | .InlineHtml html =>
      wbind (write S st html false) fun st => run S fuel rest st
    | .SoftBreak =>
      wbind (write_newline S st) fun st => run S fuel rest st
    | .HardBreak =>
      wbind (write S st "<br />" true) fun st => run S fuel rest st
    | .FootnoteReference name =>
      wbind (write S st "<sup class=\"footnote-reference\"><a href=\"#" false)
        fun st =>
      wbind (write_raw S st (escape_html name)) fun st =>
      wbind (write S st "\">" false) fun st =>
      let p := lookupOrInsert name st.numbers
      wbind (write_raw S { st with numbers := p.2 } (Nat.repr p.1)) fun st =>
      wbind (write S st "</a></sup>" false) fun st => run S fuel rest st
    | .TaskListMarker true =>
      wbind (write S st "<input disabled=\"\" type=\"checkbox\" checked=\"\"/>"
          true) fun st =>
        run S fuel rest st
    | .TaskListMarker false =>
      wbind (write S st "<input disabled=\"\" type=\"checkbox\"/>" true)
        fun st =>
        run S fuel rest st

/-- The in-memory growable text buffer (`StringWrap`): appending never
fails, for any error type `ε`. -/
def stringSink (ε : Type) : Sink String ε :=
  ⟨fun s t => .ok (s ++ t)⟩

/-- A bounded external stream: the first `budget` writes succeed, appending
to an in-memory buffer, and every later write fails with the same I/O error
`err`.  The writer state pairs the remaining budget with the text written so
far; varying the initial budget places the failure at an arbitrary write of a
render pass (budget `0` fails the very first write; a large budget never
fails). -/
def boundedSink {ε : Type} (err : ε) : Sink (Nat × String) ε :=
  ⟨fun w s => if w.1 = 0 then .error err else .ok (w.1 - 1, w.2 ++ s)⟩

end Gen

/-- Forget the remaining write budget of a bounded-sink writer state, keeping
the text written so far. -/
def strip (p : HtmlState (Nat × String)) : HtmlState String :=
  { writer := p.writer.2
    end_newline := p.end_newline
    table_state := p.table_state
    table_alignments := p.table_alignments
    table_cell_index := p.table_cell_index
    numbers := p.numbers }

/-- Outcome of a bounded-sink computation measured against the pure `String`
result: either it has already failed with the sink's own error, propagated
unchanged, or it has succeeded and its stripped state is exactly the pure
state. -/
def bounded_outcome {ε : Type} (err : ε)
    (x : Except ε (HtmlState (Nat × String))) (q : HtmlState String) : Prop :=
  x = Except.error err ∨ ∃ p, x = Except.ok p ∧ strip p = q

/-- `bounded_outcome` for computations that also return the remaining event
stream (`raw_text` and `start_tag`). -/
def bounded_outcome_pair {ε : Type} (err : ε)
    (x : Except ε (List Event × HtmlState (Nat × String)))
    (z : List Event × HtmlState String) : Prop :=
  x = Except.error err ∨ ∃ r, x = Except.ok r ∧ r.1 = z.1 ∧ strip r.2 = z.2

/-! ### Basic string and escaping lemmas -/

theorem data_ne_nil_of_ne_empty {s : String} (h : s ≠ "") : s.data ≠ [] := by
  intro hd
  exact h (by cases s; simp_all)

theorem append_ne_empty_right (w s : String) (h : s ≠ "") : w ++ s ≠ "" := by
  intro hc
  have : (w ++ s).data = [] := by rw [hc]
  rw [String.data_append] at this
  exact data_ne_nil_of_ne_empty h (List.append_eq_nil.mp this).2

theorem ends_nl_append (w s : String) (h : s ≠ "") :
    ends_nl (w ++ s) = ends_nl s := by
  unfold ends_nl
  refine decide_eq_decide.mpr ?_
  rw [String.data_append, List.getLast?_append_of_ne_nil _ (data_ne_nil_of_ne_empty h)]

theorem ends_nl_append_nl (w : String) : ends_nl (w ++ "\n") = true := by
  rw [ends_nl_append w "\n" (by decide)]
  decide

theorem escapeHtmlChar_ne_nil (c : Char) : escapeHtmlChar c ≠ [] := by
  unfold escapeHtmlChar
  repeat' split
  all_goals simp

theorem escape_html_list_ne_nil {cs : List Char} (h : cs ≠ []) :
    escape_html_list cs ≠ [] := by
  match cs with
  | [] => exact absurd rfl h
  | c :: cs =>
    show escapeHtmlChar c ++ escape_html_list cs ≠ []
    exact List.append_ne_nil_of_left_ne_nil (escapeHtmlChar_ne_nil c) _

theorem escape_html_ne_empty {t : String} (h : t ≠ "") : escape_html t ≠ "" := by
  intro hc
  have : (escape_html t).data = [] := by rw [hc]
  exact escape_html_list_ne_nil (data_ne_nil_of_ne_empty h) this

theorem escapeHtmlChar_getLast?_nl (c : Char) :
    ((escapeHtmlChar c).getLast? = some '\n') ↔ c = '\n' := by
  unfold escapeHtmlChar
  repeat' split
  all_goals first
    | (rename_i h; subst h; decide)
    | simp

theorem escape_html_list_getLast? :
    ∀ (cs : List Char) (c : Char), cs.getLast? = some c →
      (escape_html_list cs).getLast? = (escapeHtmlChar c).getLast?
  | [], c, h => by simp at h
  | [a], c, h => by
    have ha : a = c := by simpa using h
    rw [← ha]
    show (escapeHtmlChar a ++ escape_html_list []).getLast? = _
    simp [escape_html_list]
  | a :: b :: cs, c, h => by
    have h2 : (b :: cs).getLast? = some c := by
      rwa [List.getLast?_cons_cons] at h
    show (escapeHtmlChar a ++ escape_html_list (b :: cs)).getLast? = _
    rw [List.getLast?_append_of_ne_nil _ (escape_html_list_ne_nil (by simp))]
    exact escape_html_list_getLast? (b :: cs) c h2

theorem ends_nl_escape_html (t : String) (h : t ≠ "") :
    ends_nl (escape_html t) = ends_nl t := by
  have hd : t.data ≠ [] := data_ne_nil_of_ne_empty h
  obtain ⟨c, hc⟩ : ∃ c, t.data.getLast? = some c := by
    cases hx : t.data.getLast? with
    | none => exact absurd (by simpa using List.getLast?_eq_none_iff.mp hx) hd
    | some c => exact ⟨c, rfl⟩
  unfold ends_nl
  refine decide_eq_decide.mpr ?_
  have hdata : (escape_html t).data = escape_html_list t.data := rfl
  rw [hdata, escape_html_list_getLast? t.data c hc, hc,
    escapeHtmlChar_getLast?_nl]
  simp

/-! ### State-projection lemmas for the primitive writes -/

@[simp] theorem write_newline_numbers (st : HtmlState String) :
    (write_newline st).numbers = st.numbers := rfl

@[simp] theorem write_newline_table_state (st : HtmlState String) :
    (write_newline st).table_state = st.table_state := rfl

@[simp] theorem write_newline_table_alignments (st : HtmlState String) :
    (write_newline st).table_alignments = st.table_alignments := rfl

@[simp] theorem write_newline_table_cell_index (st : HtmlState String) :
    (write_newline st).table_cell_index = st.table_cell_index := rfl

@[simp] theorem write_newline_writer (st : HtmlState String) :
    (write_newline st).writer = st.writer ++ "\n" := rfl

theorem write_numbers (st : HtmlState String) (s : String) (b : Bool) :
    (write st s b).numbers = st.numbers := by
  unfold write
  split
  · rfl
  split <;> rfl

theorem write_table_state (st : HtmlState String) (s : String) (b : Bool) :
    (write st s b).table_state = st.table_state := by
  unfold write
  split
  · rfl
  split <;> rfl

theorem write_table_alignments (st : HtmlState String) (s : String) (b : Bool) :
    (write st s b).table_alignments = st.table_alignments := by
  unfold write
  split
  · rfl
  split <;> rfl

theorem write_table_cell_index (st : HtmlState String) (s : String) (b : Bool) :
    (write st s b).table_cell_index = st.table_cell_index := by
  unfold write
  split
  · rfl
  split <;> rfl

@[simp] theorem write_false_writer (st : HtmlState String) (s : String) :
    (write st s false).writer = st.writer ++ s := by
  unfold write
  simp only [Bool.false_eq_true, if_false]
  split <;> rfl

@[simp] theorem write_true_writer (st : HtmlState String) (s : String) :
    (write st s true).writer = st.writer ++ s ++ "\n" := rfl

@[simp] theorem write_raw_numbers (st : HtmlState String) (s : String) :
    (write_raw st s).numbers = st.numbers := rfl

@[simp] theorem write_raw_table_state (st : HtmlState String) (s : String) :
    (write_raw st s).table_state = st.table_state := rfl

@[simp] theorem write_raw_writer (st : HtmlState String) (s : String) :
    (write_raw st s).writer = st.writer ++ s := rfl

@[simp] theorem write_raw_end_newline (st : HtmlState String) (s : String) :
    (write_raw st s).end_newline = st.end_newline := rfl

theorem fresh_line_numbers (st : HtmlState String) :
    (fresh_line st).numbers = st.numbers := by
  unfold fresh_line
  split <;> rfl

theorem fresh_line_table_state (st : HtmlState String) :
    (fresh_line st).table_state = st.table_state := by
  unfold fresh_line
  split <;> rfl

theorem fresh_line_table_alignments (st : HtmlState String) :
    (fresh_line st).table_alignments = st.table_alignments := by
  unfold fresh_line
  split <;> rfl

theorem fresh_line_table_cell_index (st : HtmlState String) :
    (fresh_line st).table_cell_index = st.table_cell_index := by
  unfold fresh_line
  split <;> rfl

theorem takeWhile_append_stop (p : Char → Bool) :
    ∀ (xs : List Char), (∀ x ∈ xs, p x = true) →
      ∀ (y : Char), p y = false → ∀ (ys : List Char),
        (xs ++ y :: ys).takeWhile p = xs
  | [], _, y, hy, ys => by
    rw [List.nil_append, List.takeWhile_cons_of_neg (by simp [hy])]
  | x :: xs, hx, y, hy, ys => by
    have hpx : p x = true := hx x (by simp)
    have ih := takeWhile_append_stop p xs (fun a ha => hx a (by simp [ha])) y hy ys
    rw [List.cons_append, List.takeWhile_cons_of_pos (by simp [hpx]), ih]

theorem first_space_token_append (a b : String) (h : ∀ c ∈ a.data, c ≠ ' ') :
    first_space_token (a ++ " " ++ b) = a := by
  unfold first_space_token
  have hdata : (a ++ " " ++ b).data = a.data ++ ' ' :: b.data := by
    rw [String.data_append, String.data_append]
    simp
  rw [hdata, takeWhile_append_stop _ a.data
    (fun x hx => by simp [h x hx]) ' ' (by simp) b.data]

/-! ### The freshness-flag invariant for the primitive writes -/

theorem ends_nl_append_gt (q : String) : ends_nl (q ++ ">") = false := by
  rw [ends_nl_append q ">" (by decide)]
  decide

theorem inv_write_newline (st : HtmlState String) :
    newline_invariant (write_newline st) := by
  intro _
  rw [write_newline_writer, ends_nl_append_nl]
  rfl

theorem inv_write_true (st : HtmlState String) (s : String) :
    newline_invariant (write st s true) := by
  intro _
  show true = ends_nl (st.writer ++ s ++ "\n")
  rw [ends_nl_append_nl]

theorem inv_write_false_of_ne (st : HtmlState String) {s : String}
    (h : s ≠ "") : newline_invariant (write st s false) := by
  intro _
  have hne : s.isEmpty = false := by
    cases hi : s.isEmpty with
    | false => rfl
    | true => exact absurd ((String.isEmpty_iff s).mp hi) h
  show (write st s false).end_newline = ends_nl (write st s false).writer
  unfold write
  simp only [Bool.false_eq_true, if_false, hne]
  rw [ends_nl_append _ _ h]

theorem inv_fresh_line {st : HtmlState String}
    (h : newline_invariant st) : newline_invariant (fresh_line st) := by
  unfold fresh_line
  split
  · exact h
  · exact inv_write_newline st

theorem inv_text_step (st : HtmlState String) {t : String} (h : t ≠ "") :
    newline_invariant
      { write_raw st (escape_html t) with end_newline := ends_nl t } := by
  intro _
  show ends_nl t = ends_nl (st.writer ++ escape_html t)
  rw [ends_nl_append _ _ (escape_html_ne_empty h), ends_nl_escape_html t h]

theorem inv_set_false_of (st : HtmlState String) {s : String} (hne : s ≠ "")
    (h : ends_nl s = false) :
    newline_invariant { write st s false with end_newline := false } := by
  intro _
  show false = ends_nl (write st s false).writer
  have hemp : s.isEmpty = false := by
    cases hi : s.isEmpty with
    | false => rfl
    | true => exact absurd ((String.isEmpty_iff s).mp hi) hne
  unfold write
  simp only [Bool.false_eq_true, if_false, hemp]
  show false = ends_nl (st.writer ++ s)
  rw [ends_nl_append _ _ hne, h]

theorem inv_update_cell_index (st : HtmlState String) (k : Nat)
    (h : newline_invariant st) :
    newline_invariant { st with table_cell_index := k } :=
  fun hw => h hw

theorem inv_update_table_state (st : HtmlState String) (ts : TableState)
    (h : newline_invariant st) :
    newline_invariant { st with table_state := ts } :=
  fun hw => h hw

theorem inv_header_raw (st : HtmlState String) (level : Int) :
    newline_invariant
      (write_raw { st with end_newline := false }
        ("<h" ++ Int.repr level ++ ">")) := by
  intro _
  show false = ends_nl (st.writer ++ ("<h" ++ Int.repr level ++ ">"))
  rw [ends_nl_append _ _
    (append_ne_empty_right _ ">" (by decide)), ends_nl_append_gt]

theorem inv_end_header (st : HtmlState String) (level : Int) :
    newline_invariant
      (write (write_raw st ("</h" ++ Int.repr level)) ">" true) :=
  inv_write_true _ _

/-! ### Event-membership lemmas for the streams returned by the flattener -/

theorem raw_text_fst_subset :
    ∀ (evts : List Event) (n : Int) (st : HtmlState String) (x : Event),
      x ∈ (raw_text evts n st).1 → x ∈ evts
  | [], _, st, x => by simp [raw_text]
  | e :: rest, n, st, x => by
    cases e with
    | Start t =>
      intro hx
      exact List.mem_cons_of_mem _ (raw_text_fst_subset rest _ _ x hx)
    | End t =>
      intro hx
      by_cases hn : n = 0
      · subst hn
        simp only [raw_text, if_pos rfl] at hx
        exact List.mem_cons_of_mem _ hx
      · simp only [raw_text, if_neg hn] at hx
        exact List.mem_cons_of_mem _ (raw_text_fst_subset rest _ _ x hx)
    | Text t =>
      intro hx
      exact List.mem_cons_of_mem _ (raw_text_fst_subset rest _ _ x hx)
    | Code t =>
      intro hx
      exact List.mem_cons_of_mem _ (raw_text_fst_subset rest _ _ x hx)
    | Html t =>
      intro hx
      exact List.mem_cons_of_mem _ (raw_text_fst_subset rest _ _ x hx)
    | InlineHtml t =>
      intro hx
      exact List.mem_cons_of_mem _ (raw_text_fst_subset rest _ _ x hx)
    | SoftBreak =>
      intro hx
      exact List.mem_cons_of_mem _ (raw_text_fst_subset rest _ _ x hx)
    | HardBreak =>
      intro hx
      exact List.mem_cons_of_mem _ (raw_text_fst_subset rest _ _ x hx)
    | FootnoteReference name =>
      intro hx
      exact List.mem_cons_of_mem _ (raw_text_fst_subset rest _ _ x hx)
    | TaskListMarker checked =>
      cases checked with
      | true =>
        intro hx
        exact List.mem_cons_of_mem _ (raw_text_fst_subset rest _ _ x hx)
      | false =>
        intro hx
        exact List.mem_cons_of_mem _ (raw_text_fst_subset rest _ _ x hx)

theorem start_tag_fst_subset (tag : Tag) (evts : List Event)
    (st : HtmlState String) :
    ∀ x ∈ (start_tag tag evts st).1, x ∈ evts := by
  cases tag with
  | CodeBlock info =>
    intro x hx
    simp only [start_tag] at hx
    by_cases hl : (first_space_token info).isEmpty = true
    · rw [if_pos hl] at hx
      exact hx
    · rw [if_neg hl] at hx
      exact hx
  | List startNum =>
    intro x hx
    cases startNum with
    | none => exact hx
    | some n =>
      by_cases hn : n = 1
      · subst hn
        exact hx
      · simp only [start_tag] at hx
        rw [if_neg hn] at hx
        exact hx
  | Image kind dest title =>
    intro x hx
    exact raw_text_fst_subset evts 0 _ x hx
  | Link kind dest title =>
    cases kind <;> exact fun x hx => hx
  | _ => exact fun x hx => hx

/-! ### Invariant preservation through the tag handlers -/

theorem inv_write (st : HtmlState String) (s : String) (b : Bool)
    (h : newline_invariant st) : newline_invariant (write st s b) := by
  cases b with
  | true => exact inv_write_true st s
  | false =>
    by_cases hs : s = ""
    · subst hs
      have heq : write st "" false = st := by
        show ({ st with writer := st.writer ++ "" } : HtmlState String) = st
        have : st.writer ++ "" = st.writer := by simp
        rw [this]
      rw [heq]
      exact h
    · exact inv_write_false_of_ne st hs

theorem start_tag_invariant (tag : Tag) (evts : List Event)
    (st : HtmlState String) (h : newline_invariant st) :
    newline_invariant (start_tag tag evts st).2 := by
  cases tag with
  | Paragraph => exact inv_write_false_of_ne _ (by decide)
  | Rule => exact inv_write_true _ _
  | Header level => exact inv_header_raw _ level
  | Table aligns => exact inv_write_false_of_ne _ (by decide)
  | TableHead => exact inv_write_false_of_ne _ (by decide)
  | TableRow => exact inv_write_false_of_ne _ (by decide)
  | TableCell => exact inv_write_false_of_ne _ (by decide)
  | BlockQuote => exact inv_write_true _ _
  | CodeBlock info =>
    simp only [start_tag]
    split
    · exact inv_write_false_of_ne _ (by decide)
    · exact inv_write_false_of_ne _ (by decide)
  | List startNum =>
    cases startNum with
    | none => exact inv_write_true _ _
    | some n =>
      by_cases hn : n = 1
      · subst hn
        exact inv_write_true _ _
      · simp only [start_tag]
        rw [if_neg hn]
        exact inv_write_true _ _
  | Item => exact inv_write_false_of_ne _ (by decide)
  | Emphasis => exact inv_write_false_of_ne _ (by decide)
  | Strong => exact inv_write_false_of_ne _ (by decide)
  | Strikethrough => exact inv_write_false_of_ne _ (by decide)
  | Link kind dest title =>
    cases kind <;> exact inv_write_false_of_ne _ (by decide)
  | Image kind dest title => exact inv_write_false_of_ne _ (by decide)
  | FootnoteDefinition name => exact inv_write_false_of_ne _ (by decide)
  | HtmlBlock => exact h

theorem end_tag_invariant (tag : Tag) (st : HtmlState String)
    (h : newline_invariant st) : newline_invariant (end_tag tag st) := by
  cases tag with
  | Paragraph => exact inv_write_true _ _
  | Rule => exact h
  | Header level => exact inv_end_header st level
  | Table aligns => exact inv_write_true _ _
  | TableHead => exact inv_update_table_state _ _ (inv_write_true _ _)
  | TableRow => exact inv_write_true _ _
  | TableCell =>
    have hx : newline_invariant (match st.table_state with
        | TableState.Head => write st "</th>" false
        | TableState.Body => write st "</td>" false) := by
      cases st.table_state
      · exact inv_write_false_of_ne _ (by decide)
      · exact inv_write_false_of_ne _ (by decide)
    exact inv_update_cell_index _ _ hx
  | BlockQuote => exact inv_write_true _ _
  | CodeBlock info => exact inv_write_true _ _
  | List startNum => cases startNum <;> exact inv_write_true _ _
  | Item => exact inv_write_true _ _
  | Emphasis => exact inv_write_false_of_ne _ (by decide)
  | Strong => exact inv_write_false_of_ne _ (by decide)
  | Strikethrough => exact inv_write_false_of_ne _ (by decide)
  | Link kind dest title => exact inv_write_false_of_ne _ (by decide)
  | Image kind dest title => exact h
  | FootnoteDefinition name => exact inv_write_true _ _
  | HtmlBlock => exact h

/-! ### Claim theorems -/

/-- Claim C2: rendering the eleven-event header-plus-list stream into an
empty in-memory buffer produces exactly the expected HTML string. -/
theorem claim_C2_end_to_end :
    push_html "" [.Start (.Header 1), .Text "hello", .End (.Header 1),
      .Start (.List none), .Start .Item, .Text "alpha", .End .Item,
      .Start .Item, .Text "beta", .End .Item, .End (.List none)] =
    "<h1>hello</h1>\n<ul>\n<li>alpha</li>\n<li>beta</li>\n</ul>\n" := by
  decide

set_option maxRecDepth 4000 in
/-- Claim C3: footnote numbering is first-encounter-order based and shared
across inline references, the raw-text flattener, and footnote definitions:
referencing "b" inline, then "a" inside an image description, then "b" again
from a footnote definition yields numbers 1, 2 and 1, and a final numbering
table `[("b", 1), ("a", 2)]`. -/
theorem claim_C3_footnote_numbering :
    push_html "" [.FootnoteReference "b",
        .Start (.Image .Other "u" ""), .FootnoteReference "a",
        .End (.Image .Other "u" ""),
        .Start (.FootnoteDefinition "b"), .End (.FootnoteDefinition "b")] =
      "<sup class=\"footnote-reference\"><a href=\"#b\">1</a></sup><img src=\"u\" alt=\"[2]\" />\n<div class=\"footnote-definition\" id=\"b\"><sup class=\"footnote-definition-label\">1</sup></div>\n" ∧
    (write_html_state "" [.FootnoteReference "b",
        .Start (.Image .Other "u" ""), .FootnoteReference "a",
        .End (.Image .Other "u" ""),
        .Start (.FootnoteDefinition "b"), .End (.FootnoteDefinition "b")]).numbers =
      [("b", 1), ("a", 2)] := by
  constructor
  · decide
  · decide

/-- Claim C5 counterexample: `Start(Table)` does not reset the table section
to `Head`.  After a first table whose `TableHead` has ended (leaving the
section at `Body`), processing the second `Start(Table(...))` leaves the
section at `Body`, not `Head` as the claim states. -/
theorem claim_C5_counterexample :
    (write_html_state "" [.Start (.Table []), .Start .TableHead,
        .End .TableHead, .End (.Table []),
        .Start (.Table [])]).table_state = TableState.Body ∧
    TableState.Body ≠ TableState.Head := by
  constructor
  · decide
  · decide

/-- Claim C5 (amended): the table section is set to `Head` when a `TableHead`
starts and to `Body` when it ends; a `Start(Table(...))` event leaves the
section state unchanged (the section of a new table only becomes `Head` when
its `TableHead` starts). -/
theorem claim_C5_table_section :
    ∀ (evts : List Event) (st : HtmlState String) (aligns : List Alignment),
      (start_tag .TableHead evts st).2.table_state = TableState.Head ∧
      (end_tag .TableHead st).table_state = TableState.Body ∧
      (start_tag (.Table aligns) evts st).2.table_state = st.table_state := by
  intro evts st aligns
  refine ⟨?_, ?_, ?_⟩
  · show (write { st with table_state := .Head, table_cell_index := 0 }
      "<thead><tr>" false).table_state = TableState.Head
    rw [write_table_state]
  · rfl
  · show (write { st with table_alignments := aligns }
      "<table>" false).table_state = st.table_state
    rw [write_table_state]

/-- Claim C6 counterexample: the language tag of a code block is not the
first whitespace-delimited token of the info string.  For info `"a\tb"` the
first whitespace-delimited token is `"a"`, but the code splits on the space
character only, so the entire `"a\tb"` (tab included) lands in the class
attribute. -/
theorem claim_C6_counterexample :
    push_html "" [.Start (.CodeBlock "a\tb")] =
      "<pre><code class=\"language-a\tb\">" ∧
    first_whitespace_token "a\tb" = "a" ∧
    push_html "" [.Start (.CodeBlock "a\tb")] ≠
      "<pre><code class=\"language-" ++
        escape_html (first_whitespace_token "a\tb") ++ "\">" := by
  refine ⟨by decide, by decide, by decide⟩

/-- Claim C6 (amended): the language tag is the first SPACE-delimited token
of the info string — the prefix of `info` before the first space character
(`info.split(' ').next()`), not the first whitespace-delimited token.  If
that prefix is empty the code block opens bare, otherwise its escaped form
lands in the class attribute; everything after the first space is discarded
(the rendered output does not depend on it). -/
theorem claim_C6_code_block_info :
    (∀ (a b c : String) (evts : List Event) (st : HtmlState String),
      (∀ ch ∈ a.data, ch ≠ ' ') →
      start_tag (.CodeBlock (a ++ " " ++ b)) evts st =
        start_tag (.CodeBlock (a ++ " " ++ c)) evts st) ∧
    (∀ (info : String) (evts : List Event) (st : HtmlState String),
      (start_tag (.CodeBlock info) evts st).1 = evts ∧
      (start_tag (.CodeBlock info) evts st).2.writer =
        (fresh_line st).writer ++
          (if (first_space_token info).isEmpty then "<pre><code>"
           else "<pre><code class=\"language-" ++
             escape_html (first_space_token info) ++ "\">")) := by
  constructor
  · intro a b c evts st h
    simp only [start_tag]
    rw [first_space_token_append a b h, first_space_token_append a c h]
  · intro info evts st
    simp only [start_tag]
    split
    · next hEmpty =>
      refine ⟨rfl, ?_⟩
      rw [hEmpty] at *
      simp [hEmpty]
    · next hEmpty =>
      refine ⟨rfl, ?_⟩
      simp [hEmpty, String.append_assoc]

set_option maxRecDepth 8000 in
set_option maxRecDepth 4000 in
/-- Witness for the discard half of amended C6: the rendering of a code block
with info `"rust x"` equals that with info `"rust y"`. -/
theorem claim_C6_code_block_info_witness :
    start_tag (.CodeBlock ("rust" ++ " " ++ "x")) [] (init_state "") =
      start_tag (.CodeBlock ("rust" ++ " " ++ "y")) [] (init_state "") :=
  claim_C6_code_block_info.1 "rust" "x" "y" [] (init_state "") (by decide)

set_option maxRecDepth 8000 in
/-- Claim C7: table column alignment is positional, sticky per table, and
safe on missing lookups.  A table with alignments `[Left, None, Right]`
renders cell 0 with a left attribute, cell 1 with none, cell 2 with a right
attribute, and the out-of-range cell 3 with none, in both head and body rows
(concrete conjunct); the cell index resets to 0 at `TableHead` and `TableRow`
starts and increments at each `TableCell` end; and whenever the cell index is
at or beyond the end of the alignment sequence, the lookup safely misses and
the cell opens with no alignment attribute. -/
theorem claim_C7_table_alignment :
    (push_html "" [.Start (.Table [.Left, .None, .Right]),
        .Start .TableHead,
        .Start .TableCell, .Text "h1", .End .TableCell,
        .Start .TableCell, .Text "h2", .End .TableCell,
        .Start .TableCell, .Text "h3", .End .TableCell,
        .Start .TableCell, .Text "h4", .End .TableCell,
        .End .TableHead,
        .Start .TableRow,
        .Start .TableCell, .Text "c1", .End .TableCell,
        .Start .TableCell, .Text "c2", .End .TableCell,
        .Start .TableCell, .Text "c3", .End .TableCell,
        .Start .TableCell, .Text "c4", .End .TableCell,
        .End .TableRow,
        .End (.Table [.Left, .None, .Right])] =
      "<table><thead><tr><th align=\"left\">h1</th><th>h2</th><th align=\"right\">h3</th><th>h4</th></tr></thead><tbody>\n<tr><td align=\"left\">c1</td><td>c2</td><td align=\"right\">c3</td><td>c4</td></tr>\n</tbody></table>\n") ∧
    (∀ (evts : List Event) (st : HtmlState String),
      (start_tag .TableHead evts st).2.table_cell_index = 0 ∧
      (start_tag .TableRow evts st).2.table_cell_index = 0 ∧
      (end_tag .TableCell st).table_cell_index = st.table_cell_index + 1) ∧
    (∀ (evts : List Event) (st : HtmlState String),
      st.table_alignments.length ≤ st.table_cell_index →
      (start_tag .TableCell evts st).2.writer =
        st.writer ++
          (if st.table_state = TableState.Head then "<th>" else "<td>")) := by
  refine ⟨by decide, ?_, ?_⟩
  · intro evts st
    refine ⟨?_, ?_, ?_⟩
    · show (write { st with table_state := .Head, table_cell_index := 0 }
        "<thead><tr>" false).table_cell_index = 0
      rw [write_table_cell_index]
    · show (write { st with table_cell_index := 0 }
        "<tr>" false).table_cell_index = 0
      rw [write_table_cell_index]
    · show ((match st.table_state with
        | TableState.Head => write st "</th>" false
        | TableState.Body => write st "</td>" false) |>
          fun s => ({ s with table_cell_index := s.table_cell_index + 1 } :
            HtmlState String)).table_cell_index = st.table_cell_index + 1
      cases st.table_state <;> simp [write_table_cell_index]
  · intro evts st h
    have hnone : st.table_alignments[st.table_cell_index]? = none :=
      List.getElem?_eq_none h
    simp only [start_tag]
    cases hts : st.table_state
    · simp only [hts, write_table_alignments, write_table_cell_index, hnone,
        write_false_writer]
      have hlit : ("<th" ++ ">" : String) = "<th>" := by decide
      simp [String.append_assoc, hlit]
    · simp only [hts, write_table_alignments, write_table_cell_index, hnone,
        write_false_writer]
      have hlit : ("<td" ++ ">" : String) = "<td>" := by decide
      simp [String.append_assoc, hlit]

/-- Witness for the out-of-range half of C7 at the fresh state, whose empty
alignment table makes every lookup miss. -/
theorem claim_C7_table_alignment_witness :
    (init_state "").table_alignments.length ≤
      (init_state "").table_cell_index ∧
    (start_tag .TableCell [] (init_state "")).2.writer =
      (init_state "").writer ++
        (if (init_state "").table_state = TableState.Head then "<th>"
         else "<td>") :=
  ⟨by decide,
    claim_C7_table_alignment.2.2 [] (init_state "") (by decide)⟩

/-- Claim C4 counterexample: `end_newline` is not always equal to
whether the last emitted character is a newline.  After `[SoftBreak,
Text("")]` the output is `"\n"` (last character a newline) but the `Text`
arm has overwritten the flag with `"".ends_with('\n') = false`. -/
theorem claim_C4_counterexample :
    (write_html_state "" [Event.SoftBreak, Event.Text ""]).writer = "\n" ∧
    ends_nl (write_html_state "" [Event.SoftBreak, Event.Text ""]).writer =
      true ∧
    (write_html_state "" [Event.SoftBreak, Event.Text ""]).end_newline =
      false := by
  refine ⟨by decide, by decide, by decide⟩

/-- Claim C4 (amended): at every completed step of the main render loop, once
anything has been emitted, `end_newline` is true exactly when the most
recently emitted character is `'\n'` — provided the stream contains no
`Text` event with an empty payload (such an event emits nothing but still
overwrites the flag, the case the counterexample exhibits; states internal to
the raw-text flattener, which the main loop never observes, are likewise
excluded by stating the invariant over whole main-loop steps). -/
theorem claim_C4_newline_flag :
    ∀ (fuel : Nat) (evts : List Event) (st : HtmlState String),
      no_empty_text evts → newline_invariant st →
      newline_invariant (run fuel evts st) := by
  intro fuel
  induction fuel with
  | zero =>
    intro evts st _ h
    simp only [run]
    exact h
  | succ fuel ih =>
    intro evts st hne hinv
    cases evts with
    | nil => exact hinv
    | cons e rest =>
      have hner : no_empty_text rest :=
        fun x hx => hne x (List.mem_cons_of_mem _ hx)
      cases e with
      | Start tag =>
        exact ih _ _
          (fun x hx => hner x (start_tag_fst_subset tag rest st x hx))
          (start_tag_invariant tag rest st hinv)
      | End tag => exact ih _ _ hner (end_tag_invariant tag st hinv)
      | Text t =>
        have ht : t ≠ "" := by
          intro hteq
          subst hteq
          exact hne (Event.Text "") (by simp) rfl
        exact ih _ _ hner (inv_text_step st ht)
      | Code t =>
        exact ih _ _ hner (inv_set_false_of _ (by decide) (by decide))
      | Html html => exact ih _ _ hner (inv_write st html false hinv)
      | InlineHtml html => exact ih _ _ hner (inv_write st html false hinv)
      | SoftBreak => exact ih _ _ hner (inv_write_newline st)
      | HardBreak => exact ih _ _ hner (inv_write_true _ _)
      | FootnoteReference name =>
        exact ih _ _ hner (inv_write_false_of_ne _ (by decide))
      | TaskListMarker checked =>
        cases checked with
        | true => exact ih _ _ hner (inv_write_true _ _)
        | false => exact ih _ _ hner (inv_write_true _ _)

/-- Witness for the amended C4 invariant at a concrete stream and the fresh
initial state. -/
theorem claim_C4_newline_flag_witness :
    newline_invariant
      (run 2 [Event.SoftBreak, Event.Text "x"] (init_state "")) :=
  claim_C4_newline_flag 2 [Event.SoftBreak, Event.Text "x"] (init_state "")
    (by unfold no_empty_text; decide) (fun hw => absurd rfl hw)

/-- Claim C9: the flattener's nesting counter never goes below zero — the
decrement is guarded by the zero test, which instead terminates the loop — so
the counter arithmetic is total and the flattener finishes on every input
stream, well-formed or not.  Concretely, on a malformed stream whose first
event is an unmatched `End`, `raw_text` consumes that single event and
returns, leaving the rest of the stream and the state untouched. -/
theorem claim_C9_flattener_safety :
    (∀ (evts : List Event) (n : Int), 0 ≤ n →
      ∀ m ∈ raw_text_nests evts n, 0 ≤ m) ∧
    (raw_text [Event.End Tag.Emphasis, Event.Text "x"] 0 (init_state "") =
      ([Event.Text "x"], init_state "")) := by
  constructor
  · intro evts
    induction evts with
    | nil =>
      intro n hn m hm
      simp only [raw_text_nests, List.mem_singleton] at hm
      omega
    | cons e rest ih =>
      intro n hn m hm
      simp only [raw_text_nests] at hm
      rcases List.mem_cons.mp hm with rfl | hm2
      · exact hn
      · cases e with
        | Start t => exact ih (n + 1) (by omega) m hm2
        | End t =>
          by_cases hz : n = 0
          · rw [if_pos hz] at hm2
            simp at hm2
          · rw [if_neg hz] at hm2
            exact ih (n - 1) (by omega) m hm2
        | Text t => exact ih n hn m hm2
        | Code t => exact ih n hn m hm2
        | Html t => exact ih n hn m hm2
        | InlineHtml t => exact ih n hn m hm2
        | SoftBreak => exact ih n hn m hm2
        | HardBreak => exact ih n hn m hm2
        | FootnoteReference name => exact ih n hn m hm2
        | TaskListMarker checked => exact ih n hn m hm2
  · decide

/-- Witness for the non-negativity half of C9 at a concrete stream, counter
value and trace element. -/
theorem claim_C9_flattener_safety_witness :
    (1 : Int) ∈ raw_text_nests [Event.Start Tag.Emphasis] 0 ∧ (0 : Int) ≤ 1 :=
  ⟨by decide,
    claim_C9_flattener_safety.1 [Event.Start Tag.Emphasis] 0 (by decide) 1
      (by decide)⟩

/-! ### Characters of the flattened output -/

theorem digitChar_ne_lt : ∀ (m : Nat), Nat.digitChar m ≠ '<'
  | 0 => by decide
  | 1 => by decide
  | 2 => by decide
  | 3 => by decide
  | 4 => by decide
  | 5 => by decide
  | 6 => by decide
  | 7 => by decide
  | 8 => by decide
  | 9 => by decide
  | 10 => by decide
  | 11 => by decide
  | 12 => by decide
  | 13 => by decide
  | 14 => by decide
  | 15 => by decide
  | (_ + 16) => (by decide : ('*' : Char) ≠ '<')

theorem toDigitsCore_ne_lt :
    ∀ (fuel n : Nat) (ds : List Char), (∀ c ∈ ds, c ≠ '<') →
      ∀ c ∈ Nat.toDigitsCore 10 fuel n ds, c ≠ '<'
  | 0, n, ds, hds => hds
  | fuel + 1, n, ds, hds => by
    intro c hc
    simp only [Nat.toDigitsCore] at hc
    split at hc
    · rcases List.mem_cons.mp hc with rfl | h2
      · exact digitChar_ne_lt _
      · exact hds _ h2
    · refine toDigitsCore_ne_lt fuel (n / 10) _ ?_ c hc
      intro x hx
      rcases List.mem_cons.mp hx with rfl | h2
      · exact digitChar_ne_lt _
      · exact hds _ h2

theorem repr_ne_lt (n : Nat) : ∀ c ∈ (Nat.repr n).data, c ≠ '<' := by
  intro c hc
  have hdata : (Nat.repr n).data = Nat.toDigitsCore 10 (n + 1) n [] := rfl
  rw [hdata] at hc
  exact toDigitsCore_ne_lt (n + 1) n [] (by simp) c hc

theorem no_tag_open_append {w s : String} (hw : no_tag_open w)
    (hs : no_tag_open s) : no_tag_open (w ++ s) := by
  intro c hc
  rw [String.data_append] at hc
  rcases List.mem_append.mp hc with h | h
  · exact hw c h
  · exact hs c h

theorem escapeHtmlChar_mem_ne_lt (ch : Char) :
    ∀ x ∈ escapeHtmlChar ch, x ≠ '<' := by
  unfold escapeHtmlChar
  split
  · intro x hx
    fin_cases hx <;> decide
  split
  · intro x hx
    fin_cases hx <;> decide
  split
  · intro x hx
    fin_cases hx <;> decide
  split
  · intro x hx
    fin_cases hx <;> decide
  · next h1 h2 h3 h4 =>
    intro x hx
    rw [List.mem_singleton] at hx
    subst hx
    exact h1

theorem escape_html_list_mem_ne_lt :
    ∀ (cs : List Char), ∀ x ∈ escape_html_list cs, x ≠ '<'
  | [] => by simp [escape_html_list]
  | c :: cs => by
    intro x hx
    simp only [escape_html_list] at hx
    rcases List.mem_append.mp hx with h | h
    · exact escapeHtmlChar_mem_ne_lt c x h
    · exact escape_html_list_mem_ne_lt cs x h

theorem no_tag_open_escape_html (t : String) : no_tag_open (escape_html t) :=
  fun c hc => escape_html_list_mem_ne_lt t.data c hc

theorem flat_step_no_tag_open (st : HtmlState String) (e : Event)
    (h : no_tag_open st.writer) : no_tag_open (flat_step st e).writer := by
  cases e with
  | Start t => exact h
  | End t => exact h
  | Html t => exact h
  | Text t => exact no_tag_open_append h (no_tag_open_escape_html t)
  | Code t => exact no_tag_open_append h (no_tag_open_escape_html t)
  | InlineHtml t => exact no_tag_open_append h (no_tag_open_escape_html t)
  | SoftBreak =>
    show no_tag_open (write st " " false).writer
    rw [write_false_writer]
    exact no_tag_open_append h (by unfold no_tag_open; decide)
  | HardBreak =>
    show no_tag_open (write st " " false).writer
    rw [write_false_writer]
    exact no_tag_open_append h (by unfold no_tag_open; decide)
  | FootnoteReference name =>
    refine no_tag_open_append h ?_
    refine no_tag_open_append (no_tag_open_append ?_ ?_) ?_
    · unfold no_tag_open
      decide
    · exact repr_ne_lt _
    · unfold no_tag_open
      decide
  | TaskListMarker checked =>
    cases checked with
    | true =>
      show no_tag_open (write st "[x]" false).writer
      rw [write_false_writer]
      exact no_tag_open_append h (by unfold no_tag_open; decide)
    | false =>
      show no_tag_open (write st "[ ]" false).writer
      rw [write_false_writer]
      exact no_tag_open_append h (by unfold no_tag_open; decide)

theorem foldl_flat_step_no_tag_open :
    ∀ (inner : List Event) (st : HtmlState String),
      no_tag_open st.writer → no_tag_open ((inner.foldl flat_step st).writer)
  | [], _, h => h
  | e :: rest, st, h =>
    foldl_flat_step_no_tag_open rest _ (flat_step_no_tag_open st e h)

/-! ### The flattener over a balanced segment is a fold of flat_step -/

theorem raw_text_flatten_aux {inner : List Event} (hb : Balanced inner) :
    ∀ (n : Int), 0 ≤ n → ∀ (rest : List Event) (st : HtmlState String),
      raw_text (inner ++ rest) n st =
        raw_text rest n (inner.foldl flat_step st) := by
  induction hb with
  | nil =>
    intro n hn rest st
    simp
  | atom hstruct hbr ih =>
    rename_i e rest1
    intro n hn rest st
    cases e with
    | Start t => simp [is_structural] at hstruct
    | End t => simp [is_structural] at hstruct
    | Text t =>
      simp only [List.cons_append, raw_text, List.foldl_cons]
      exact ih n hn rest _
    | Code t =>
      simp only [List.cons_append, raw_text, List.foldl_cons]
      exact ih n hn rest _
    | InlineHtml t =>
      simp only [List.cons_append, raw_text, List.foldl_cons]
      exact ih n hn rest _
    | Html t =>
      simp only [List.cons_append, raw_text, List.foldl_cons]
      exact ih n hn rest _
    | SoftBreak =>
      simp only [List.cons_append, raw_text, List.foldl_cons]
      exact ih n hn rest _
    | HardBreak =>
      simp only [List.cons_append, raw_text, List.foldl_cons]
      exact ih n hn rest _
    | FootnoteReference name =>
      simp only [List.cons_append, raw_text, List.foldl_cons]
      exact ih n hn rest _
    | TaskListMarker checked =>
      cases checked with
      | true =>
        simp only [List.cons_append, raw_text, List.foldl_cons]
        exact ih n hn rest _
      | false =>
        simp only [List.cons_append, raw_text, List.foldl_cons]
        exact ih n hn rest _
  | nest hbi hbr ihi ihr =>
    rename_i t t' inner1 rest1
    intro n hn rest st
    have hsplit : (Event.Start t :: (inner1 ++ Event.End t' :: rest1)) ++ rest
        = Event.Start t :: (inner1 ++ (Event.End t' :: (rest1 ++ rest))) := by
      simp
    rw [hsplit]
    show raw_text (inner1 ++ (Event.End t' :: (rest1 ++ rest))) (n + 1) st = _
    rw [ihi (n + 1) (by omega)]
    show (if n + 1 = 0 then (rest1 ++ rest, inner1.foldl flat_step st)
      else raw_text (rest1 ++ rest) (n + 1 - 1)
        (inner1.foldl flat_step st)) = _
    rw [if_neg (by omega)]
    have harith : n + 1 - 1 = n := by omega
    rw [harith, ihr n hn]
    congr 1
    simp [List.foldl_append, flat_step]

/-- Claim C1: raw-text flattening of an image description.  Over any balanced
(well-formed) description segment, `raw_text` consumes exactly the segment
plus the matching `End` at nesting depth zero and returns the remaining
stream — so the main loop resumes at the event right after that `End` — and
its effect on the state is the event-wise flattening fold (escaped text for
text-like events, a single space for soft/hard breaks, bracketed shared
footnote numbers, `Start`/`End`/`Html` dropped).  The flattened output never
contains `<`, i.e. no residual tags.  Concretely, an image description with
nested emphasis and a soft break renders as a flat escaped `alt` attribute
with the break collapsed to one space, and the loop resumes right after the
image. -/
theorem claim_C1_raw_text_flattening :
    (∀ (inner : List Event) (t : Tag) (rest : List Event)
      (st : HtmlState String), Balanced inner →
      raw_text (inner ++ Event.End t :: rest) 0 st =
        (rest, inner.foldl flat_step st)) ∧
    (∀ (inner : List Event) (st : HtmlState String),
      no_tag_open st.writer →
      no_tag_open ((inner.foldl flat_step st).writer)) ∧
    (push_html "" [.Start (.Image .Other "u" ""), .Text "a", .Start .Emphasis,
        .Text "b", .End .Emphasis, .SoftBreak, .Text "c",
        .End (.Image .Other "u" ""), .Text "after"] =
      "<img src=\"u\" alt=\"ab c\" />after") := by
  refine ⟨?_, foldl_flat_step_no_tag_open, by decide⟩
  intro inner t rest st hb
  rw [raw_text_flatten_aux hb 0 le_rfl]
  show (if (0 : Int) = 0 then (rest, inner.foldl flat_step st)
    else raw_text rest (0 - 1) (inner.foldl flat_step st)) = _
  rw [if_pos rfl]

/-- Witness for C1: the flattening equation applied to the concrete balanced
segment `[Start Emphasis, Text "b", End Emphasis]` inside an image. -/
theorem claim_C1_raw_text_flattening_witness :
    raw_text ([Event.Start Tag.Emphasis, Event.Text "b",
        Event.End Tag.Emphasis] ++
        Event.End (Tag.Image LinkType.Other "u" "") :: [Event.Text "z"]) 0
      (init_state "") =
    ([Event.Text "z"],
      [Event.Start Tag.Emphasis, Event.Text "b",
        Event.End Tag.Emphasis].foldl flat_step (init_state "")) :=
  claim_C1_raw_text_flattening.1 _ _ _ _
    (Balanced.nest (Balanced.atom (by decide) Balanced.nil) Balanced.nil)

/-! ### The numbering table stays sequential -/

theorem range'_concat_one (n : Nat) :
    List.range' 1 (n + 1) = List.range' 1 n ++ [n + 1] := by
  have h := @List.range'_concat 1 1 n
  simpa [Nat.add_comm] using h

theorem lookupOrInsert_wf (name : String) (nums : List (String × Nat))
    (h : numbers_wellformed nums) :
    numbers_wellformed (lookupOrInsert name nums).2 := by
  unfold lookupOrInsert
  cases hl : nums.lookup name with
  | some k => exact h
  | none =>
    show numbers_wellformed (nums ++ [(name, nums.length + 1)])
    unfold numbers_wellformed at h ⊢
    rw [List.map_append, List.length_append, h]
    simp only [List.map_cons, List.map_nil, List.length_cons,
      List.length_nil, Nat.zero_add]
    exact (range'_concat_one nums.length).symm

theorem raw_text_numbers_wf :
    ∀ (evts : List Event) (n : Int) (st : HtmlState String),
      numbers_wellformed st.numbers →
      numbers_wellformed ((raw_text evts n st).2).numbers
  | [], _, st, h => h
  | e :: rest, n, st, h => by
    cases e with
    | Start t => exact raw_text_numbers_wf rest (n + 1) st h
    | End t =>
      by_cases hz : n = 0
      · subst hz
        simp only [raw_text, if_pos rfl]
        exact h
      · simp only [raw_text, if_neg hz]
        exact raw_text_numbers_wf rest (n - 1) st h
    | Text t => exact raw_text_numbers_wf rest n _ h
    | Code t => exact raw_text_numbers_wf rest n _ h
    | InlineHtml t => exact raw_text_numbers_wf rest n _ h
    | Html t => exact raw_text_numbers_wf rest n st h
    | SoftBreak =>
      refine raw_text_numbers_wf rest n _ ?_
      rw [write_numbers]
      exact h
    | HardBreak =>
      refine raw_text_numbers_wf rest n _ ?_
      rw [write_numbers]
      exact h
    | FootnoteReference name =>
      refine raw_text_numbers_wf rest n _ ?_
      rw [write_raw_numbers]
      exact lookupOrInsert_wf name st.numbers h
    | TaskListMarker checked =>
      cases checked with
      | true =>
        refine raw_text_numbers_wf rest n _ ?_
        rw [write_numbers]
        exact h
      | false =>
        refine raw_text_numbers_wf rest n _ ?_
        rw [write_numbers]
        exact h

theorem start_tag_numbers_wf (tag : Tag) (evts : List Event)
    (st : HtmlState String) (h : numbers_wellformed st.numbers) :
    numbers_wellformed ((start_tag tag evts st).2).numbers := by
  cases tag with
  | Paragraph =>
    rw [show ((start_tag .Paragraph evts st).2) =
      write (fresh_line st) "<p>" false from rfl,
      write_numbers, fresh_line_numbers]
    exact h
  | Rule =>
    rw [show ((start_tag .Rule evts st).2) =
      write (fresh_line st) "<hr />" true from rfl,
      write_numbers, fresh_line_numbers]
    exact h
  | Header level =>
    rw [show ((start_tag (.Header level) evts st).2) =
      write_raw { fresh_line st with end_newline := false }
        ("<h" ++ Int.repr level ++ ">") from rfl, write_raw_numbers]
    show numbers_wellformed (fresh_line st).numbers
    rw [fresh_line_numbers]
    exact h
  | Table aligns =>
    rw [show ((start_tag (.Table aligns) evts st).2) =
      write { st with table_alignments := aligns } "<table>" false from rfl,
      write_numbers]
    exact h
  | TableHead =>
    rw [show ((start_tag .TableHead evts st).2) =
      write { st with table_state := .Head, table_cell_index := 0 }
        "<thead><tr>" false from rfl, write_numbers]
    exact h
  | TableRow =>
    rw [show ((start_tag .TableRow evts st).2) =
      write { st with table_cell_index := 0 } "<tr>" false from rfl,
      write_numbers]
    exact h
  | TableCell =>
    simp only [start_tag]
    rw [write_numbers]
    cases st.table_state <;>
      (simp only [write_table_alignments, write_table_cell_index]
       cases hopt : st.table_alignments[st.table_cell_index]? with
       | none => simp only [write_numbers]; exact h
       | some a => cases a <;> simp only [write_numbers] <;> exact h)
  | BlockQuote =>
    rw [show ((start_tag .BlockQuote evts st).2) =
      write (fresh_line st) "<blockquote>" true from rfl,
      write_numbers, fresh_line_numbers]
    exact h
  | CodeBlock info =>
    simp only [start_tag]
    split
    · rw [write_numbers, fresh_line_numbers]
      exact h
    · rw [write_numbers, write_raw_numbers, write_numbers, fresh_line_numbers]
      exact h
  | List startNum =>
    cases startNum with
    | none =>
      rw [show ((start_tag (.List none) evts st).2) =
        write (fresh_line st) "<ul>" true from rfl,
        write_numbers, fresh_line_numbers]
      exact h
    | some nv =>
      by_cases hn : nv = 1
      · subst hn
        rw [show ((start_tag (.List (some 1)) evts st).2) =
          write (fresh_line st) "<ol>" true from rfl,
          write_numbers, fresh_line_numbers]
        exact h
      · simp only [start_tag]
        rw [if_neg hn, write_numbers, write_raw_numbers, write_numbers,
          fresh_line_numbers]
        exact h
  | Item =>
    rw [show ((start_tag .Item evts st).2) =
      write (fresh_line st) "<li>" false from rfl,
      write_numbers, fresh_line_numbers]
    exact h
  | Emphasis =>
    rw [show ((start_tag .Emphasis evts st).2) =
      write st "<em>" false from rfl, write_numbers]
    exact h
  | Strong =>
    rw [show ((start_tag .Strong evts st).2) =
      write st "<strong>" false from rfl, write_numbers]
    exact h
  | Strikethrough =>
    rw [show ((start_tag .Strikethrough evts st).2) =
      write st "<del>" false from rfl, write_numbers]
    exact h
  | Link kind dest title =>
    cases kind <;>
      (simp only [start_tag]
       rw [write_numbers]
       split <;> simp only [write_raw_numbers, write_numbers] <;> exact h)
  | Image kind dest title =>
    simp only [start_tag]
    rw [write_numbers]
    split
    · refine raw_text_numbers_wf evts 0 _ ?_
      rw [write_numbers, write_raw_numbers, write_numbers]
      exact h
    · rw [write_raw_numbers, write_numbers]
      refine raw_text_numbers_wf evts 0 _ ?_
      rw [write_numbers, write_raw_numbers, write_numbers]
      exact h
  | FootnoteDefinition name =>
    simp only [start_tag]
    rw [write_numbers, write_raw_numbers]
    show numbers_wellformed
      (lookupOrInsert name (fresh_line st).numbers).2
    refine lookupOrInsert_wf name _ ?_
    rw [fresh_line_numbers]
    exact h
  | HtmlBlock => exact h

theorem end_tag_numbers_wf (tag : Tag) (st : HtmlState String)
    (h : numbers_wellformed st.numbers) :
    numbers_wellformed ((end_tag tag st)).numbers := by
  cases tag with
  | Paragraph => rw [show end_tag .Paragraph st = write st "</p>" true from rfl,
      write_numbers]; exact h
  | Rule => exact h
  | Header level =>
    rw [show end_tag (.Header level) st =
      write (write_raw st ("</h" ++ Int.repr level)) ">" true from rfl,
      write_numbers, write_raw_numbers]
    exact h
  | Table aligns =>
    rw [show end_tag (.Table aligns) st =
      write st "</tbody></table>" true from rfl, write_numbers]
    exact h
  | TableHead =>
    show numbers_wellformed
      ({ write st "</tr></thead><tbody>" true with
        table_state := TableState.Body } : HtmlState String).numbers
    show numbers_wellformed (write st "</tr></thead><tbody>" true).numbers
    rw [write_numbers]
    exact h
  | TableRow =>
    rw [show end_tag .TableRow st = write st "</tr>" true from rfl,
      write_numbers]
    exact h
  | TableCell =>
    show numbers_wellformed (match st.table_state with
      | TableState.Head => write st "</th>" false
      | TableState.Body => write st "</td>" false).numbers
    cases st.table_state <;> (rw [write_numbers]; exact h)
  | BlockQuote =>
    rw [show end_tag .BlockQuote st = write st "</blockquote>" true from rfl,
      write_numbers]
    exact h
  | CodeBlock info =>
    rw [show end_tag (.CodeBlock info) st =
      write st "</code></pre>" true from rfl, write_numbers]
    exact h
  | List startNum =>
    cases startNum with
    | none =>
      rw [show end_tag (.List none) st = write st "</ul>" true from rfl,
        write_numbers]
      exact h
    | some nv =>
      rw [show end_tag (.List (some nv)) st = write st "</ol>" true from rfl,
        write_numbers]
      exact h
  | Item =>
    rw [show end_tag .Item st = write st "</li>" true from rfl, write_numbers]
    exact h
  | Emphasis =>
    rw [show end_tag .Emphasis st = write st "</em>" false from rfl,
      write_numbers]
    exact h
  | Strong =>
    rw [show end_tag .Strong st = write st "</strong>" false from rfl,
      write_numbers]
    exact h
  | Strikethrough =>
    rw [show end_tag .Strikethrough st = write st "</del>" false from rfl,
      write_numbers]
    exact h
  | Link kind dest title =>
    rw [show end_tag (.Link kind dest title) st =
      write st "</a>" false from rfl, write_numbers]
    exact h
  | Image kind dest title => exact h
  | FootnoteDefinition name =>
    rw [show end_tag (.FootnoteDefinition name) st =
      write st "</div>" true from rfl, write_numbers]
    exact h
  | HtmlBlock => exact h

theorem run_numbers_wf :
    ∀ (fuel : Nat) (evts : List Event) (st : HtmlState String),
      numbers_wellformed st.numbers →
      numbers_wellformed (run fuel evts st).numbers := by
  intro fuel
  induction fuel with
  | zero =>
    intro evts st h
    simp only [run]
    exact h
  | succ fuel ih =>
    intro evts st h
    cases evts with
    | nil => exact h
    | cons e rest =>
      cases e with
      | Start tag => exact ih _ _ (start_tag_numbers_wf tag rest st h)
      | End tag => exact ih _ _ (end_tag_numbers_wf tag st h)
      | Text t => exact ih _ _ h
      | Code t =>
        refine ih _ _ ?_
        show numbers_wellformed
          (write (write_raw (write st "<code>" false) (escape_html t))
            "</code>" false).numbers
        rw [write_numbers, write_raw_numbers, write_numbers]
        exact h
      | Html html =>
        refine ih _ _ ?_
        rw [write_numbers]
        exact h
      | InlineHtml html =>
        refine ih _ _ ?_
        rw [write_numbers]
        exact h
      | SoftBreak => exact ih _ _ h
      | HardBreak =>
        refine ih _ _ ?_
        rw [write_numbers]
        exact h
      | FootnoteReference name =>
        refine ih _ _ ?_
        rw [write_numbers, write_raw_numbers]
        refine lookupOrInsert_wf name _ ?_
        rw [write_numbers, write_raw_numbers, write_numbers]
        exact h
      | TaskListMarker checked =>
        cases checked with
        | true =>
          refine ih _ _ ?_
          rw [write_numbers]
          exact h
        | false =>
          refine ih _ _ ?_
          rw [write_numbers]
          exact h

/-- Claim C10: rendering is deterministic — it is a pure function of the
event sequence (equal sequences rendered from fresh states give byte-equal
output) — and footnote numbers come from the count of previously seen
distinct names at first insertion, never from hash or iteration order: in
every final state the numbering table's values are exactly `1, 2, …, n` in
insertion order. -/
theorem claim_C10_determinism :
    (∀ (evts : List Event),
      numbers_wellformed (write_html_state "" evts).numbers) ∧
    (∀ (evts1 evts2 : List Event), evts1 = evts2 →
      push_html "" evts1 = push_html "" evts2) := by
  constructor
  · intro evts
    refine run_numbers_wf evts.length evts (init_state "") ?_
    show numbers_wellformed []
    unfold numbers_wellformed
    simp
  · intro evts1 evts2 heq
    rw [heq]

/-- Witness for C10's determinism conjunct at a concrete pair of equal
streams. -/
theorem claim_C10_determinism_witness :
    push_html "" [Event.Text "x"] = push_html "" [Event.Text "x"] :=
  claim_C10_determinism.2 [Event.Text "x"] [Event.Text "x"] rfl

/-! ### The generic engine agrees with the pure engine on the String sink -/

@[simp] theorem wbind_ok {α β ε : Type} (a : α) (f : α → Except ε β) :
    Gen.wbind (Except.ok a) f = f a := rfl

@[simp] theorem wbind_error {α β ε : Type} (e : ε) (f : α → Except ε β) :
    Gen.wbind (Except.error e : Except ε α) f = Except.error e := rfl

theorem write_newline_string_eq (ε : Type) (st : HtmlState String) :
    Gen.write_newline (Gen.stringSink ε) st = Except.ok (write_newline st) :=
  rfl

theorem write_raw_string_eq (ε : Type) (st : HtmlState String) (s : String) :
    Gen.write_raw (Gen.stringSink ε) st s = Except.ok (write_raw st s) := rfl

theorem write_string_eq (ε : Type) (st : HtmlState String) (s : String)
    (b : Bool) :
    Gen.write (Gen.stringSink ε) st s b = Except.ok (write st s b) := by
  cases b with
  | true => rfl
  | false =>
    cases hs : s.isEmpty with
    | true =>
      simp only [Gen.write, Gen.stringSink, wbind_ok, write, hs]
      rfl
    | false =>
      simp only [Gen.write, Gen.stringSink, wbind_ok, write, hs]
      rfl

theorem fresh_line_string_eq (ε : Type) (st : HtmlState String) :
    Gen.fresh_line (Gen.stringSink ε) st = Except.ok (fresh_line st) := by
  unfold Gen.fresh_line fresh_line
  split <;> rfl

theorem raw_text_string_eq (ε : Type) :
    ∀ (evts : List Event) (n : Int) (st : HtmlState String),
      Gen.raw_text (Gen.stringSink ε) evts n st =
        Except.ok (raw_text evts n st)
  | [], _, _ => rfl
  | e :: rest, n, st => by
    cases e with
    | Start t =>
      simp only [Gen.raw_text, raw_text]
      exact raw_text_string_eq ε rest (n + 1) st
    | End t =>
      by_cases hz : n = 0
      · simp only [Gen.raw_text, raw_text, if_pos hz]
      · simp only [Gen.raw_text, raw_text, if_neg hz]
        exact raw_text_string_eq ε rest (n - 1) st
    | Text t =>
      simp only [Gen.raw_text, raw_text, write_raw_string_eq, wbind_ok]
      exact raw_text_string_eq ε rest n _
    | Code t =>
      simp only [Gen.raw_text, raw_text, write_raw_string_eq, wbind_ok]
      exact raw_text_string_eq ε rest n _
    | InlineHtml t =>
      simp only [Gen.raw_text, raw_text, write_raw_string_eq, wbind_ok]
      exact raw_text_string_eq ε rest n _
    | Html t =>
      simp only [Gen.raw_text, raw_text]
      exact raw_text_string_eq ε rest n st
    | SoftBreak =>
      simp only [Gen.raw_text, raw_text, write_string_eq, wbind_ok]
      exact raw_text_string_eq ε rest n _
    | HardBreak =>
      simp only [Gen.raw_text, raw_text, write_string_eq, wbind_ok]
      exact raw_text_string_eq ε rest n _
    | FootnoteReference name =>
      simp only [Gen.raw_text, raw_text, write_raw_string_eq, wbind_ok]
      exact raw_text_string_eq ε rest n _
    | TaskListMarker checked =>
      cases checked with
      | true =>
        simp only [Gen.raw_text, raw_text, write_string_eq, wbind_ok]
        exact raw_text_string_eq ε rest n _
      | false =>
        simp only [Gen.raw_text, raw_text, write_string_eq, wbind_ok]
        exact raw_text_string_eq ε rest n _

theorem start_tag_string_eq (ε : Type) (tag : Tag) (evts : List Event)
    (st : HtmlState String) :
    Gen.start_tag (Gen.stringSink ε) tag evts st =
      Except.ok (start_tag tag evts st) := by
  cases tag with
  | Paragraph =>
    simp only [Gen.start_tag, start_tag, fresh_line_string_eq,
      write_string_eq, wbind_ok]
  | Rule =>
    simp only [Gen.start_tag, start_tag, fresh_line_string_eq,
      write_string_eq, wbind_ok]
  | Header level =>
    simp only [Gen.start_tag, start_tag, fresh_line_string_eq,
      write_raw_string_eq, wbind_ok]
  | Table aligns =>
    simp only [Gen.start_tag, start_tag, write_string_eq, wbind_ok]
  | TableHead =>
    simp only [Gen.start_tag, start_tag, write_string_eq, wbind_ok]
  | TableRow =>
    simp only [Gen.start_tag, start_tag, write_string_eq, wbind_ok]
  | TableCell =>
    simp only [Gen.start_tag, start_tag]
    cases st.table_state <;>
      (simp only [write_string_eq, wbind_ok, write_table_alignments,
        write_table_cell_index]
       cases st.table_alignments[st.table_cell_index]? with
       | none => simp only [write_string_eq, wbind_ok]
       | some a => cases a <;> simp only [write_string_eq, wbind_ok])
  | BlockQuote =>
    simp only [Gen.start_tag, start_tag, fresh_line_string_eq,
      write_string_eq, wbind_ok]
  | CodeBlock info =>
    simp only [Gen.start_tag, start_tag, fresh_line_string_eq, wbind_ok]
    split <;>
      simp only [write_string_eq, write_raw_string_eq, wbind_ok]
  | List startNum =>
    cases startNum with
    | none =>
      simp only [Gen.start_tag, start_tag, fresh_line_string_eq,
        write_string_eq, wbind_ok]
    | some nv =>
      by_cases hn : nv = 1
      · subst hn
        simp only [Gen.start_tag, start_tag, if_pos rfl,
          fresh_line_string_eq, write_string_eq, wbind_ok]
        simp
      · simp only [Gen.start_tag, start_tag, if_neg hn,
          fresh_line_string_eq, write_string_eq, write_raw_string_eq,
          wbind_ok]
  | Item =>
    simp only [Gen.start_tag, start_tag, fresh_line_string_eq,
      write_string_eq, wbind_ok]
  | Emphasis =>
    simp only [Gen.start_tag, start_tag, write_string_eq, wbind_ok]
  | Strong =>
    simp only [Gen.start_tag, start_tag, write_string_eq, wbind_ok]
  | Strikethrough =>
    simp only [Gen.start_tag, start_tag, write_string_eq, wbind_ok]
  | Link kind dest title =>
    cases kind <;>
      (simp only [Gen.start_tag, start_tag, write_string_eq,
        write_raw_string_eq, wbind_ok]
       by_cases ht : title.isEmpty = true <;>
         simp [ht, write_string_eq, write_raw_string_eq])
  | Image kind dest title =>
    simp only [Gen.start_tag, start_tag, write_string_eq,
      write_raw_string_eq, wbind_ok, raw_text_string_eq]
    by_cases ht : title.isEmpty = true <;>
      simp [ht, write_string_eq, write_raw_string_eq]
  | FootnoteDefinition name =>
    simp only [Gen.start_tag, start_tag, fresh_line_string_eq,
      write_string_eq, write_raw_string_eq, wbind_ok]
  | HtmlBlock => rfl

theorem end_tag_string_eq (ε : Type) (tag : Tag) (st : HtmlState String) :
    Gen.end_tag (Gen.stringSink ε) tag st = Except.ok (end_tag tag st) := by
  cases tag with
  | TableCell =>
    simp only [Gen.end_tag, end_tag]
    cases st.table_state <;> simp only [write_string_eq, wbind_ok]
  | TableHead =>
    simp only [Gen.end_tag, end_tag, write_string_eq, wbind_ok]
  | Header level =>
    simp only [Gen.end_tag, end_tag, write_raw_string_eq, write_string_eq,
      wbind_ok]
  | List startNum =>
    cases startNum <;>
      simp only [Gen.end_tag, end_tag, write_string_eq, wbind_ok]
  | _ =>
    simp only [Gen.end_tag, end_tag, write_string_eq, wbind_ok]

theorem run_string_eq (ε : Type) :
    ∀ (fuel : Nat) (evts : List Event) (st : HtmlState String),
      Gen.run (Gen.stringSink ε) fuel evts st = Except.ok (run fuel evts st)
  | 0, evts, st => by simp only [Gen.run, run]
  | fuel + 1, [], st => by simp only [Gen.run, run]
  | fuel + 1, e :: rest, st => by
    cases e with
    | Start tag =>
      simp only [Gen.run, run, start_tag_string_eq, wbind_ok]
      exact run_string_eq ε fuel _ _
    | End tag =>
      simp only [Gen.run, run, end_tag_string_eq, wbind_ok]
      exact run_string_eq ε fuel rest _
    | Text t =>
      simp only [Gen.run, run, write_raw_string_eq, wbind_ok]
      exact run_string_eq ε fuel rest _
    | Code t =>
      simp only [Gen.run, run, write_string_eq, write_raw_string_eq, wbind_ok]
      exact run_string_eq ε fuel rest _
    | Html html =>
      simp only [Gen.run, run, write_string_eq, wbind_ok]
      exact run_string_eq ε fuel rest _
    | InlineHtml html =>
      simp only [Gen.run, run, write_string_eq, wbind_ok]
      exact run_string_eq ε fuel rest _
    | SoftBreak =>
      simp only [Gen.run, run, write_newline_string_eq, wbind_ok]
      exact run_string_eq ε fuel rest _
    | HardBreak =>
      simp only [Gen.run, run, write_string_eq, wbind_ok]
      exact run_string_eq ε fuel rest _
    | FootnoteReference name =>
      simp only [Gen.run, run, write_string_eq, write_raw_string_eq, wbind_ok]
      exact run_string_eq ε fuel rest _
    | TaskListMarker checked =>
      cases checked with
      | true =>
        simp only [Gen.run, run, write_string_eq, wbind_ok]
        exact run_string_eq ε fuel rest _
      | false =>
        simp only [Gen.run, run, write_string_eq, wbind_ok]
        exact run_string_eq ε fuel rest _

/-! ### The bounded sink: failure at an arbitrary write of the pass -/

@[simp] theorem strip_writer (p : HtmlState (Nat × String)) :
    (strip p).writer = p.writer.2 := rfl

@[simp] theorem strip_end_newline (p : HtmlState (Nat × String)) :
    (strip p).end_newline = p.end_newline := rfl

@[simp] theorem strip_table_state (p : HtmlState (Nat × String)) :
    (strip p).table_state = p.table_state := rfl

@[simp] theorem strip_table_alignments (p : HtmlState (Nat × String)) :
    (strip p).table_alignments = p.table_alignments := rfl

@[simp] theorem strip_table_cell_index (p : HtmlState (Nat × String)) :
    (strip p).table_cell_index = p.table_cell_index := rfl

@[simp] theorem strip_numbers (p : HtmlState (Nat × String)) :
    (strip p).numbers = p.numbers := rfl

theorem bounded_outcome_ok {ε : Type} (err : ε)
    {p : HtmlState (Nat × String)} {q : HtmlState String} (h : strip p = q) :
    bounded_outcome err (Except.ok p) q :=
  Or.inr ⟨p, rfl, h⟩

theorem bounded_outcome_pair_ok {ε : Type} (err : ε)
    {r : List Event × HtmlState (Nat × String)}
    {z : List Event × HtmlState String} (h1 : r.1 = z.1)
    (h2 : strip r.2 = z.2) :
    bounded_outcome_pair err (Except.ok r) z :=
  Or.inr ⟨r, rfl, h1, h2⟩

theorem bounded_outcome_bind {ε : Type} {err : ε}
    {x : Except ε (HtmlState (Nat × String))} {q : HtmlState String}
    {f : HtmlState (Nat × String) → Except ε (HtmlState (Nat × String))}
    {q2 : HtmlState String} (hx : bounded_outcome err x q)
    (hf : ∀ p, strip p = q → bounded_outcome err (f p) q2) :
    bounded_outcome err (Gen.wbind x f) q2 := by
  rcases hx with h | ⟨p, hp, hs⟩
  · subst h
    left
    rfl
  · subst hp
    exact hf p hs

theorem bounded_outcome_bind_pair {ε : Type} {err : ε}
    {x : Except ε (HtmlState (Nat × String))} {q : HtmlState String}
    {f : HtmlState (Nat × String) →
      Except ε (List Event × HtmlState (Nat × String))}
    {z : List Event × HtmlState String} (hx : bounded_outcome err x q)
    (hf : ∀ p, strip p = q → bounded_outcome_pair err (f p) z) :
    bounded_outcome_pair err (Gen.wbind x f) z := by
  rcases hx with h | ⟨p, hp, hs⟩
  · subst h
    left
    rfl
  · subst hp
    exact hf p hs

theorem bounded_outcome_pair_bind {ε : Type} {err : ε}
    {x : Except ε (List Event × HtmlState (Nat × String))}
    {z : List Event × HtmlState String}
    {f : List Event × HtmlState (Nat × String) →
      Except ε (HtmlState (Nat × String))}
    {q2 : HtmlState String} (hx : bounded_outcome_pair err x z)
    (hf : ∀ r, r.1 = z.1 → strip r.2 = z.2 → bounded_outcome err (f r) q2) :
    bounded_outcome err (Gen.wbind x f) q2 := by
  rcases hx with h | ⟨r, hr, h1, h2⟩
  · subst h
    left
    rfl
  · subst hr
    exact hf r h1 h2

theorem bounded_outcome_pair_bind_pair {ε : Type} {err : ε}
    {x : Except ε (List Event × HtmlState (Nat × String))}
    {z : List Event × HtmlState String}
    {f : List Event × HtmlState (Nat × String) →
      Except ε (List Event × HtmlState (Nat × String))}
    {z2 : List Event × HtmlState String} (hx : bounded_outcome_pair err x z)
    (hf : ∀ r, r.1 = z.1 → strip r.2 = z.2 →
      bounded_outcome_pair err (f r) z2) :
    bounded_outcome_pair err (Gen.wbind x f) z2 := by
  rcases hx with h | ⟨r, hr, h1, h2⟩
  · subst h
    left
    rfl
  · subst hr
    exact hf r h1 h2

theorem bounded_write_newline {ε : Type} (err : ε)
    (p : HtmlState (Nat × String)) :
    bounded_outcome err (Gen.write_newline (Gen.boundedSink err) p)
      (write_newline (strip p)) := by
  by_cases hk : p.writer.1 = 0
  · left
    show Gen.wbind (if p.writer.1 = 0 then Except.error err
      else Except.ok (p.writer.1 - 1, p.writer.2 ++ "\n")) _ = _
    rw [if_pos hk]
    rfl
  · right
    refine ⟨{ p with writer := (p.writer.1 - 1, p.writer.2 ++ "\n"), end_newline := true }, ?_, rfl⟩
    show Gen.wbind (if p.writer.1 = 0 then Except.error err
      else Except.ok (p.writer.1 - 1, p.writer.2 ++ "\n")) _ = _
    rw [if_neg hk]
    rfl

theorem bounded_write_raw {ε : Type} (err : ε)
    (p : HtmlState (Nat × String)) (s : String) :
    bounded_outcome err (Gen.write_raw (Gen.boundedSink err) p s)
      (write_raw (strip p) s) := by
  by_cases hk : p.writer.1 = 0
  · left
    show Gen.wbind (if p.writer.1 = 0 then Except.error err
      else Except.ok (p.writer.1 - 1, p.writer.2 ++ s)) _ = _
    rw [if_pos hk]
    rfl
  · right
    refine ⟨{ p with writer := (p.writer.1 - 1, p.writer.2 ++ s) }, ?_, rfl⟩
    show Gen.wbind (if p.writer.1 = 0 then Except.error err
      else Except.ok (p.writer.1 - 1, p.writer.2 ++ s)) _ = _
    rw [if_neg hk]
    rfl

theorem bounded_write {ε : Type} (err : ε) (p : HtmlState (Nat × String))
    (s : String) (b : Bool) :
    bounded_outcome err (Gen.write (Gen.boundedSink err) p s b)
      (write (strip p) s b) := by
  by_cases hk : p.writer.1 = 0
  · left
    show Gen.wbind (if p.writer.1 = 0 then Except.error err
      else Except.ok (p.writer.1 - 1, p.writer.2 ++ s)) _ = _
    rw [if_pos hk]
    rfl
  · cases b with
    | true =>
      have hred : Gen.write (Gen.boundedSink err) p s true =
          Gen.write_newline (Gen.boundedSink err)
            { p with writer := (p.writer.1 - 1, p.writer.2 ++ s) } := by
        show Gen.wbind (if p.writer.1 = 0 then Except.error err
          else Except.ok (p.writer.1 - 1, p.writer.2 ++ s)) _ = _
        rw [if_neg hk]
        rfl
      have hq : write (strip p) s true =
          write_newline { strip p with writer := (strip p).writer ++ s } := rfl
      rw [hred, hq]
      have h2 := bounded_write_newline err
        { p with writer := (p.writer.1 - 1, p.writer.2 ++ s) }
      have hs2 : strip { p with writer := (p.writer.1 - 1, p.writer.2 ++ s) } =
          { strip p with writer := (strip p).writer ++ s } := rfl
      rw [hs2] at h2
      exact h2
    | false =>
      by_cases hs : s.isEmpty = true
      · have hred : Gen.write (Gen.boundedSink err) p s false =
            Except.ok { p with writer := (p.writer.1 - 1, p.writer.2 ++ s) } := by
          show Gen.wbind (if p.writer.1 = 0 then Except.error err
            else Except.ok (p.writer.1 - 1, p.writer.2 ++ s)) _ = _
          rw [if_neg hk]
          simp only [wbind_ok, Bool.false_eq_true, if_false, hs, if_true]
        rw [hred]
        refine bounded_outcome_ok err ?_
        show ({ strip p with writer := (strip p).writer ++ s } :
          HtmlState String) = write (strip p) s false
        unfold write
        simp only [Bool.false_eq_true, if_false, hs, if_true]
      · have hred : Gen.write (Gen.boundedSink err) p s false =
            Except.ok { p with writer := (p.writer.1 - 1, p.writer.2 ++ s), end_newline := ends_nl s } := by
          show Gen.wbind (if p.writer.1 = 0 then Except.error err
            else Except.ok (p.writer.1 - 1, p.writer.2 ++ s)) _ = _
          rw [if_neg hk]
          simp only [wbind_ok, Bool.false_eq_true, if_false]
          rw [if_neg hs]
        rw [hred]
        refine bounded_outcome_ok err ?_
        show ({ strip p with writer := (strip p).writer ++ s, end_newline := ends_nl s } : HtmlState String) = write (strip p) s false
        unfold write
        simp only [Bool.false_eq_true, if_false, hs]

theorem bounded_fresh_line {ε : Type} (err : ε)
    (p : HtmlState (Nat × String)) :
    bounded_outcome err (Gen.fresh_line (Gen.boundedSink err) p)
      (fresh_line (strip p)) := by
  by_cases hf : p.end_newline = true
  · have h1 : Gen.fresh_line (Gen.boundedSink err) p = Except.ok p := by
      unfold Gen.fresh_line
      rw [if_pos hf]
    have h2 : fresh_line (strip p) = strip p := by
      unfold fresh_line
      rw [if_pos (by rw [strip_end_newline]; exact hf)]
    rw [h1, h2]
    exact bounded_outcome_ok err rfl
  · have h1 : Gen.fresh_line (Gen.boundedSink err) p =
        Gen.write_newline (Gen.boundedSink err) p := by
      unfold Gen.fresh_line
      rw [if_neg hf]
    have h2 : fresh_line (strip p) = write_newline (strip p) := by
      unfold fresh_line
      rw [if_neg (by rw [strip_end_newline]; exact hf)]
    rw [h1, h2]
    exact bounded_write_newline err p

theorem bounded_raw_text {ε : Type} (err : ε) :
    ∀ (evts : List Event) (n : Int) (p : HtmlState (Nat × String)),
      bounded_outcome_pair err (Gen.raw_text (Gen.boundedSink err) evts n p)
        (raw_text evts n (strip p))
  | [], _, p => bounded_outcome_pair_ok err rfl rfl
  | e :: rest, n, p => by
    cases e with
    | Start t => exact bounded_raw_text err rest (n + 1) p
    | End t =>
      by_cases hz : n = 0
      · subst hz
        have hg : Gen.raw_text (Gen.boundedSink err) (Event.End t :: rest) 0 p
            = Except.ok (rest, p) := by
          simp [Gen.raw_text]
        have hp : raw_text (Event.End t :: rest) 0 (strip p) =
            (rest, strip p) := by
          simp [raw_text]
        rw [hg, hp]
        exact bounded_outcome_pair_ok err rfl rfl
      · have hg : Gen.raw_text (Gen.boundedSink err) (Event.End t :: rest) n p
            = Gen.raw_text (Gen.boundedSink err) rest (n - 1) p := by
          simp only [Gen.raw_text, if_neg hz]
        have hp : raw_text (Event.End t :: rest) n (strip p) =
            raw_text rest (n - 1) (strip p) := by
          simp only [raw_text, if_neg hz]
        rw [hg, hp]
        exact bounded_raw_text err rest (n - 1) p
    | Text t =>
      simp only [Gen.raw_text, raw_text]
      refine bounded_outcome_bind_pair
        (bounded_write_raw err p (escape_html t)) ?_
      intro p1 h1
      have hrec := bounded_raw_text err rest n
        { p1 with end_newline := ends_nl t }
      have hst : strip { p1 with end_newline := ends_nl t } =
          { write_raw (strip p) (escape_html t) with
            end_newline := ends_nl t } := by
        show ({ strip p1 with end_newline := ends_nl t } :
          HtmlState String) = _
        rw [h1]
      rw [hst] at hrec
      exact hrec
    | Code t =>
      simp only [Gen.raw_text, raw_text]
      refine bounded_outcome_bind_pair
        (bounded_write_raw err p (escape_html t)) ?_
      intro p1 h1
      have hrec := bounded_raw_text err rest n
        { p1 with end_newline := ends_nl t }
      have hst : strip { p1 with end_newline := ends_nl t } =
          { write_raw (strip p) (escape_html t) with
            end_newline := ends_nl t } := by
        show ({ strip p1 with end_newline := ends_nl t } :
          HtmlState String) = _
        rw [h1]
      rw [hst] at hrec
      exact hrec
    | InlineHtml t =>
      simp only [Gen.raw_text, raw_text]
      refine bounded_outcome_bind_pair
        (bounded_write_raw err p (escape_html t)) ?_
      intro p1 h1
      have hrec := bounded_raw_text err rest n
        { p1 with end_newline := ends_nl t }
      have hst : strip { p1 with end_newline := ends_nl t } =
          { write_raw (strip p) (escape_html t) with
            end_newline := ends_nl t } := by
        show ({ strip p1 with end_newline := ends_nl t } :
          HtmlState String) = _
        rw [h1]
      rw [hst] at hrec
      exact hrec
    | Html t => exact bounded_raw_text err rest n p
    | SoftBreak =>
      simp only [Gen.raw_text, raw_text]
      refine bounded_outcome_bind_pair (bounded_write err p " " false) ?_
      intro p1 h1
      have hrec := bounded_raw_text err rest n p1
      rw [h1] at hrec
      exact hrec
    | HardBreak =>
      simp only [Gen.raw_text, raw_text]
      refine bounded_outcome_bind_pair (bounded_write err p " " false) ?_
      intro p1 h1
      have hrec := bounded_raw_text err rest n p1
      rw [h1] at hrec
      exact hrec
    | FootnoteReference name =>
      simp only [Gen.raw_text, raw_text, strip_numbers]
      refine bounded_outcome_bind_pair
        (bounded_write_raw err
          { p with numbers := (lookupOrInsert name p.numbers).2 }
          ("[" ++ Nat.repr (lookupOrInsert name p.numbers).1 ++ "]")) ?_
      intro p1 h1
      have hrec := bounded_raw_text err rest n p1
      rw [h1] at hrec
      exact hrec
    | TaskListMarker checked =>
      cases checked with
      | true =>
        simp only [Gen.raw_text, raw_text]
        refine bounded_outcome_bind_pair (bounded_write err p "[x]" false) ?_
        intro p1 h1
        have hrec := bounded_raw_text err rest n p1
        rw [h1] at hrec
        exact hrec
      | false =>
        simp only [Gen.raw_text, raw_text]
        refine bounded_outcome_bind_pair (bounded_write err p "[ ]" false) ?_
        intro p1 h1
        have hrec := bounded_raw_text err rest n p1
        rw [h1] at hrec
        exact hrec

theorem bounded_start_tag {ε : Type} (err : ε) (tag : Tag)
    (evts : List Event) (p : HtmlState (Nat × String)) :
    bounded_outcome_pair err
      (Gen.start_tag (Gen.boundedSink err) tag evts p)
      (start_tag tag evts (strip p)) := by
  cases tag with
  | Paragraph =>
    simp only [Gen.start_tag, start_tag]
    refine bounded_outcome_bind_pair (bounded_fresh_line err p) ?_
    intro p1 h1
    refine bounded_outcome_bind_pair (bounded_write err p1 "<p>" false) ?_
    intro p2 h2
    refine bounded_outcome_pair_ok err rfl ?_
    rw [h2, h1]
  | Rule =>
    simp only [Gen.start_tag, start_tag]
    refine bounded_outcome_bind_pair (bounded_fresh_line err p) ?_
    intro p1 h1
    refine bounded_outcome_bind_pair (bounded_write err p1 "<hr />" true) ?_
    intro p2 h2
    refine bounded_outcome_pair_ok err rfl ?_
    rw [h2, h1]
  | Header level =>
    simp only [Gen.start_tag, start_tag]
    refine bounded_outcome_bind_pair (bounded_fresh_line err p) ?_
    intro p1 h1
    refine bounded_outcome_bind_pair
      (bounded_write_raw err { p1 with end_newline := false }
        ("<h" ++ Int.repr level ++ ">")) ?_
    intro p2 h2
    refine bounded_outcome_pair_ok err rfl ?_
    rw [h2]
    show write_raw ({ strip p1 with end_newline := false })
      ("<h" ++ Int.repr level ++ ">") = _
    rw [h1]
  | Table aligns =>
    simp only [Gen.start_tag, start_tag]
    refine bounded_outcome_bind_pair
      (bounded_write err { p with table_alignments := aligns }
        "<table>" false) ?_
    intro p1 h1
    refine bounded_outcome_pair_ok err rfl ?_
    rw [h1]
    rfl
  | TableHead =>
    simp only [Gen.start_tag, start_tag]
    refine bounded_outcome_bind_pair
      (bounded_write err
        { p with table_state := .Head, table_cell_index := 0 }
        "<thead><tr>" false) ?_
    intro p1 h1
    refine bounded_outcome_pair_ok err rfl ?_
    rw [h1]
    rfl
  | TableRow =>
    simp only [Gen.start_tag, start_tag]
    refine bounded_outcome_bind_pair
      (bounded_write err { p with table_cell_index := 0 } "<tr>" false) ?_
    intro p1 h1
    refine bounded_outcome_pair_ok err rfl ?_
    rw [h1]
    rfl
  | TableCell =>
    simp only [Gen.start_tag, start_tag, strip_table_state]
    cases hts : p.table_state with
    | Head =>
      refine bounded_outcome_bind_pair (bounded_write err p "<th" false) ?_
      intro p1 h1
      have ha : (write (strip p) "<th" false).table_alignments =
          p1.table_alignments := by
        rw [← h1]
        rfl
      have hi : (write (strip p) "<th" false).table_cell_index =
          p1.table_cell_index := by
        rw [← h1]
        rfl
      rw [ha, hi]
      cases hopt : p1.table_alignments[p1.table_cell_index]? with
      | none =>
        refine bounded_outcome_bind_pair
          ((Or.inr ⟨p1, rfl, rfl⟩ :
            bounded_outcome err (Except.ok p1) (strip p1))) ?_
        intro p2 h2
        refine bounded_outcome_bind_pair (bounded_write err p2 ">" false) ?_
        intro p3 h3
        refine bounded_outcome_pair_ok err rfl ?_
        rw [h3, h2, h1]
      | some a =>
        cases a with
        | None =>
          refine bounded_outcome_bind_pair
            ((Or.inr ⟨p1, rfl, rfl⟩ :
              bounded_outcome err (Except.ok p1) (strip p1))) ?_
          intro p2 h2
          refine bounded_outcome_bind_pair (bounded_write err p2 ">" false) ?_
          intro p3 h3
          refine bounded_outcome_pair_ok err rfl ?_
          rw [h3, h2, h1]
        | Left =>
          refine bounded_outcome_bind_pair
            (bounded_write err p1 " align=\"left\"" false) ?_
          intro p2 h2
          refine bounded_outcome_bind_pair (bounded_write err p2 ">" false) ?_
          intro p3 h3
          refine bounded_outcome_pair_ok err rfl ?_
          rw [h3, h2, h1]
        | Center =>
          refine bounded_outcome_bind_pair
            (bounded_write err p1 " align=\"center\"" false) ?_
          intro p2 h2
          refine bounded_outcome_bind_pair (bounded_write err p2 ">" false) ?_
          intro p3 h3
          refine bounded_outcome_pair_ok err rfl ?_
          rw [h3, h2, h1]
        | Right =>
          refine bounded_outcome_bind_pair
            (bounded_write err p1 " align=\"right\"" false) ?_
          intro p2 h2
          refine bounded_outcome_bind_pair (bounded_write err p2 ">" false) ?_
          intro p3 h3
          refine bounded_outcome_pair_ok err rfl ?_
          rw [h3, h2, h1]
    | Body =>
      refine bounded_outcome_bind_pair (bounded_write err p "<td" false) ?_
      intro p1 h1
      have ha : (write (strip p) "<td" false).table_alignments =
          p1.table_alignments := by
        rw [← h1]
        rfl
      have hi : (write (strip p) "<td" false).table_cell_index =
          p1.table_cell_index := by
        rw [← h1]
        rfl
      rw [ha, hi]
      cases hopt : p1.table_alignments[p1.table_cell_index]? with
      | none =>
        refine bounded_outcome_bind_pair
          ((Or.inr ⟨p1, rfl, rfl⟩ :
            bounded_outcome err (Except.ok p1) (strip p1))) ?_
        intro p2 h2
        refine bounded_outcome_bind_pair (bounded_write err p2 ">" false) ?_
        intro p3 h3
        refine bounded_outcome_pair_ok err rfl ?_
        rw [h3, h2, h1]
      | some a =>
        cases a with
        | None =>
          refine bounded_outcome_bind_pair
            ((Or.inr ⟨p1, rfl, rfl⟩ :
              bounded_outcome err (Except.ok p1) (strip p1))) ?_
          intro p2 h2
          refine bounded_outcome_bind_pair (bounded_write err p2 ">" false) ?_
          intro p3 h3
          refine bounded_outcome_pair_ok err rfl ?_
          rw [h3, h2, h1]
        | Left =>
          refine bounded_outcome_bind_pair
            (bounded_write err p1 " align=\"left\"" false) ?_
          intro p2 h2
          refine bounded_outcome_bind_pair (bounded_write err p2 ">" false) ?_
          intro p3 h3
          refine bounded_outcome_pair_ok err rfl ?_
          rw [h3, h2, h1]
        | Center =>
          refine bounded_outcome_bind_pair
            (bounded_write err p1 " align=\"center\"" false) ?_
          intro p2 h2
          refine bounded_outcome_bind_pair (bounded_write err p2 ">" false) ?_
          intro p3 h3
          refine bounded_outcome_pair_ok err rfl ?_
          rw [h3, h2, h1]
        | Right =>
          refine bounded_outcome_bind_pair
            (bounded_write err p1 " align=\"right\"" false) ?_
          intro p2 h2
          refine bounded_outcome_bind_pair (bounded_write err p2 ">" false) ?_
          intro p3 h3
          refine bounded_outcome_pair_ok err rfl ?_
          rw [h3, h2, h1]
  | BlockQuote =>
    simp only [Gen.start_tag, start_tag]
    refine bounded_outcome_bind_pair (bounded_fresh_line err p) ?_
    intro p1 h1
    refine bounded_outcome_bind_pair
      (bounded_write err p1 "<blockquote>" true) ?_
    intro p2 h2
    refine bounded_outcome_pair_ok err rfl ?_
    rw [h2, h1]
  | CodeBlock info =>
    simp only [Gen.start_tag, start_tag]
    refine bounded_outcome_bind_pair (bounded_fresh_line err p) ?_
    intro p1 h1
    by_cases hl : (first_space_token info).isEmpty = true
    · rw [if_pos hl, if_pos hl]
      refine bounded_outcome_bind_pair
        (bounded_write err p1 "<pre><code>" false) ?_
      intro p2 h2
      refine bounded_outcome_pair_ok err rfl ?_
      rw [h2, h1]
    · rw [if_neg hl, if_neg hl]
      refine bounded_outcome_bind_pair
        (bounded_write err p1 "<pre><code class=\"language-" false) ?_
      intro p2 h2
      refine bounded_outcome_bind_pair
        (bounded_write_raw err p2 (escape_html (first_space_token info))) ?_
      intro p3 h3
      refine bounded_outcome_bind_pair (bounded_write err p3 "\">" false) ?_
      intro p4 h4
      refine bounded_outcome_pair_ok err rfl ?_
      rw [h4, h3, h2, h1]
  | List startNum =>
    cases startNum with
    | none =>
      simp only [Gen.start_tag, start_tag]
      refine bounded_outcome_bind_pair (bounded_fresh_line err p) ?_
      intro p1 h1
      refine bounded_outcome_bind_pair (bounded_write err p1 "<ul>" true) ?_
      intro p2 h2
      refine bounded_outcome_pair_ok err rfl ?_
      rw [h2, h1]
    | some nv =>
      by_cases hn : nv = 1
      · subst hn
        simp only [Gen.start_tag, start_tag, if_pos rfl]
        refine bounded_outcome_bind_pair (bounded_fresh_line err p) ?_
        intro p1 h1
        refine bounded_outcome_bind_pair (bounded_write err p1 "<ol>" true) ?_
        intro p2 h2
        refine bounded_outcome_pair_ok err rfl ?_
        rw [h2, h1]
        simp
      · simp only [Gen.start_tag, start_tag, if_neg hn]
        refine bounded_outcome_bind_pair (bounded_fresh_line err p) ?_
        intro p1 h1
        refine bounded_outcome_bind_pair
          (bounded_write err p1 "<ol start=\"" false) ?_
        intro p2 h2
        refine bounded_outcome_bind_pair
          (bounded_write_raw err p2 (Nat.repr nv)) ?_
        intro p3 h3
        refine bounded_outcome_bind_pair (bounded_write err p3 "\">" true) ?_
        intro p4 h4
        refine bounded_outcome_pair_ok err rfl ?_
        rw [h4, h3, h2, h1]
  | Item =>
    simp only [Gen.start_tag, start_tag]
    refine bounded_outcome_bind_pair (bounded_fresh_line err p) ?_
    intro p1 h1
    refine bounded_outcome_bind_pair (bounded_write err p1 "<li>" false) ?_
    intro p2 h2
    refine bounded_outcome_pair_ok err rfl ?_
    rw [h2, h1]
  | Emphasis =>
    simp only [Gen.start_tag, start_tag]
    refine bounded_outcome_bind_pair (bounded_write err p "<em>" false) ?_
    intro p1 h1
    refine bounded_outcome_pair_ok err rfl ?_
    rw [h1]
  | Strong =>
    simp only [Gen.start_tag, start_tag]
    refine bounded_outcome_bind_pair (bounded_write err p "<strong>" false) ?_
    intro p1 h1
    refine bounded_outcome_pair_ok err rfl ?_
    rw [h1]
  | Strikethrough =>
    simp only [Gen.start_tag, start_tag]
    refine bounded_outcome_bind_pair (bounded_write err p "<del>" false) ?_
    intro p1 h1
    refine bounded_outcome_pair_ok err rfl ?_
    rw [h1]
  | Link kind dest title =>
    cases kind with
    | Email =>
      simp only [Gen.start_tag, start_tag]
      refine bounded_outcome_bind_pair
        (bounded_write err p "<a href=\"mailto:" false) ?_
      intro p1 h1
      refine bounded_outcome_bind_pair
        (bounded_write_raw err p1 (escape_href dest)) ?_
      intro p2 h2
      by_cases ht : title.isEmpty = true
      · rw [if_pos ht, if_pos ht]
        refine bounded_outcome_bind_pair
          ((Or.inr ⟨p2, rfl, rfl⟩ :
            bounded_outcome err (Except.ok p2) (strip p2))) ?_
        intro p3 h3
        refine bounded_outcome_bind_pair (bounded_write err p3 "\">" false) ?_
        intro p4 h4
        refine bounded_outcome_pair_ok err rfl ?_
        rw [h4, h3, h2, h1]
      · rw [if_neg ht, if_neg ht]
        refine bounded_outcome_bind_pair
          ((bounded_outcome_bind
            (bounded_write err p2 "\" title=\"" false) ?_ :
            bounded_outcome err _
              (write_raw (write (strip p2) "\" title=\"" false)
                (escape_html title)))) ?_
        · intro p3 h3
          have hx := bounded_write_raw err p3 (escape_html title)
          rw [h3] at hx
          exact hx
        · intro p3 h3
          refine bounded_outcome_bind_pair (bounded_write err p3 "\">" false) ?_
          intro p4 h4
          refine bounded_outcome_pair_ok err rfl ?_
          rw [h4, h3, h2, h1]
    | Other =>
      simp only [Gen.start_tag, start_tag]
      refine bounded_outcome_bind_pair
        (bounded_write err p "<a href=\"" false) ?_
      intro p1 h1
      refine bounded_outcome_bind_pair
        (bounded_write_raw err p1 (escape_href dest)) ?_
      intro p2 h2
      by_cases ht : title.isEmpty = true
      · rw [if_pos ht, if_pos ht]
        refine bounded_outcome_bind_pair
          ((Or.inr ⟨p2, rfl, rfl⟩ :
            bounded_outcome err (Except.ok p2) (strip p2))) ?_
        intro p3 h3
        refine bounded_outcome_bind_pair (bounded_write err p3 "\">" false) ?_
        intro p4 h4
        refine bounded_outcome_pair_ok err rfl ?_
        rw [h4, h3, h2, h1]
      · rw [if_neg ht, if_neg ht]
        refine bounded_outcome_bind_pair
          ((bounded_outcome_bind
            (bounded_write err p2 "\" title=\"" false) ?_ :
            bounded_outcome err _
              (write_raw (write (strip p2) "\" title=\"" false)
                (escape_html title)))) ?_
        · intro p3 h3
          have hx := bounded_write_raw err p3 (escape_html title)
          rw [h3] at hx
          exact hx
        · intro p3 h3
          refine bounded_outcome_bind_pair (bounded_write err p3 "\">" false) ?_
          intro p4 h4
          refine bounded_outcome_pair_ok err rfl ?_
          rw [h4, h3, h2, h1]
  | Image kind dest title =>
    simp only [Gen.start_tag, start_tag]
    refine bounded_outcome_bind_pair
      (bounded_write err p "<img src=\"" false) ?_
    intro p1 h1
    refine bounded_outcome_bind_pair
      (bounded_write_raw err p1 (escape_href dest)) ?_
    intro p2 h2
    refine bounded_outcome_bind_pair (bounded_write err p2 "\" alt=\"" false) ?_
    intro p3 h3
    have hrt := bounded_raw_text err evts 0 p3
    rw [h3, h2, h1] at hrt
    refine bounded_outcome_pair_bind_pair hrt ?_
    intro r hr1 hr2
    by_cases ht : title.isEmpty = true
    · rw [if_pos ht, if_pos ht]
      refine bounded_outcome_bind_pair
        ((Or.inr ⟨r.2, rfl, rfl⟩ :
          bounded_outcome err (Except.ok r.2) (strip r.2))) ?_
      intro p4 h4
      refine bounded_outcome_bind_pair (bounded_write err p4 "\" />" false) ?_
      intro p5 h5
      refine bounded_outcome_pair_ok err hr1 ?_
      rw [h5, h4, hr2]
    · rw [if_neg ht, if_neg ht]
      refine bounded_outcome_bind_pair
        ((bounded_outcome_bind
          (bounded_write err r.2 "\" title=\"" false) ?_ :
          bounded_outcome err _
            (write_raw (write (strip r.2) "\" title=\"" false)
              (escape_html title)))) ?_
      · intro p4 h4
        have hx := bounded_write_raw err p4 (escape_html title)
        rw [h4] at hx
        exact hx
      · intro p4 h4
        refine bounded_outcome_bind_pair (bounded_write err p4 "\" />" false) ?_
        intro p5 h5
        refine bounded_outcome_pair_ok err hr1 ?_
        rw [h5, h4, hr2]
  | FootnoteDefinition name =>
    simp only [Gen.start_tag, start_tag]
    refine bounded_outcome_bind_pair (bounded_fresh_line err p) ?_
    intro p1 h1
    rw [← h1, strip_numbers]
    refine bounded_outcome_bind_pair
      (bounded_write err p1 "<div class=\"footnote-definition\" id=\"" false) ?_
    intro p2 h2
    refine bounded_outcome_bind_pair
      (bounded_write_raw err p2 (escape_html name)) ?_
    intro p3 h3
    refine bounded_outcome_bind_pair
      (bounded_write err p3
        "\"><sup class=\"footnote-definition-label\">" false) ?_
    intro p4 h4
    refine bounded_outcome_bind_pair
      (bounded_write_raw err
        { p4 with numbers := (lookupOrInsert name p1.numbers).2 }
        (Nat.repr (lookupOrInsert name p1.numbers).1)) ?_
    intro p5 h5
    refine bounded_outcome_bind_pair (bounded_write err p5 "</sup>" false) ?_
    intro p6 h6
    refine bounded_outcome_pair_ok err rfl ?_
    rw [h6, h5]
    show write (write_raw
      ({ strip p4 with numbers := (lookupOrInsert name p1.numbers).2 })
      (Nat.repr (lookupOrInsert name p1.numbers).1)) "</sup>" false = _
    rw [h4, h3, h2]
  | HtmlBlock => exact bounded_outcome_pair_ok err rfl rfl

theorem bounded_end_tag {ε : Type} (err : ε) (tag : Tag)
    (p : HtmlState (Nat × String)) :
    bounded_outcome err (Gen.end_tag (Gen.boundedSink err) tag p)
      (end_tag tag (strip p)) := by
  cases tag with
  | Paragraph => exact bounded_write err p "</p>" true
  | Rule => exact bounded_outcome_ok err rfl
  | Header level =>
    simp only [Gen.end_tag, end_tag]
    refine bounded_outcome_bind
      (bounded_write_raw err p ("</h" ++ Int.repr level)) ?_
    intro p1 h1
    have hx := bounded_write err p1 ">" true
    rw [h1] at hx
    exact hx
  | Table aligns => exact bounded_write err p "</tbody></table>" true
  | TableHead =>
    simp only [Gen.end_tag, end_tag]
    refine bounded_outcome_bind
      (bounded_write err p "</tr></thead><tbody>" true) ?_
    intro p1 h1
    refine bounded_outcome_ok err ?_
    show ({ strip p1 with table_state := TableState.Body } :
      HtmlState String) = _
    rw [h1]
  | TableRow => exact bounded_write err p "</tr>" true
  | TableCell =>
    simp only [Gen.end_tag, end_tag, strip_table_state]
    cases hts : p.table_state with
    | Head =>
      refine bounded_outcome_bind (bounded_write err p "</th>" false) ?_
      intro p1 h1
      refine bounded_outcome_ok err ?_
      have hidx : p1.table_cell_index =
          (write (strip p) "</th>" false).table_cell_index := by
        rw [← h1]
        rfl
      show ({ strip p1 with
        table_cell_index := p1.table_cell_index + 1 } : HtmlState String) = _
      rw [hidx, h1]
    | Body =>
      refine bounded_outcome_bind (bounded_write err p "</td>" false) ?_
      intro p1 h1
      refine bounded_outcome_ok err ?_
      have hidx : p1.table_cell_index =
          (write (strip p) "</td>" false).table_cell_index := by
        rw [← h1]
        rfl
      show ({ strip p1 with
        table_cell_index := p1.table_cell_index + 1 } : HtmlState String) = _
      rw [hidx, h1]
  | BlockQuote => exact bounded_write err p "</blockquote>" true
  | CodeBlock info => exact bounded_write err p "</code></pre>" true
  | List startNum =>
    cases startNum with
    | none => exact bounded_write err p "</ul>" true
    | some nv => exact bounded_write err p "</ol>" true
  | Item => exact bounded_write err p "</li>" true
  | Emphasis => exact bounded_write err p "</em>" false
  | Strong => exact bounded_write err p "</strong>" false
  | Strikethrough => exact bounded_write err p "</del>" false
  | Link kind dest title => exact bounded_write err p "</a>" false
  | Image kind dest title => exact bounded_outcome_ok err rfl
  | FootnoteDefinition name => exact bounded_write err p "</div>" true
  | HtmlBlock => exact bounded_outcome_ok err rfl

theorem bounded_run {ε : Type} (err : ε) :
    ∀ (fuel : Nat) (evts : List Event) (p : HtmlState (Nat × String)),
      bounded_outcome err (Gen.run (Gen.boundedSink err) fuel evts p)
        (run fuel evts (strip p)) := by
  intro fuel
  induction fuel with
  | zero =>
    intro evts p
    simp only [Gen.run, run]
    exact bounded_outcome_ok err rfl
  | succ fuel ih =>
    intro evts p
    cases evts with
    | nil =>
      simp only [Gen.run, run]
      exact bounded_outcome_ok err rfl
    | cons e rest =>
      cases e with
      | Start tag =>
        simp only [Gen.run, run]
        refine bounded_outcome_pair_bind (bounded_start_tag err tag rest p) ?_
        intro r hr1 hr2
        rw [← hr1, ← hr2]
        exact ih r.1 r.2
      | End tag =>
        simp only [Gen.run, run]
        refine bounded_outcome_bind (bounded_end_tag err tag p) ?_
        intro p1 h1
        rw [← h1]
        exact ih rest p1
      | Text t =>
        simp only [Gen.run, run]
        refine bounded_outcome_bind (bounded_write_raw err p (escape_html t)) ?_
        intro p1 h1
        rw [← h1]
        exact ih rest { p1 with end_newline := ends_nl t }
      | Code t =>
        simp only [Gen.run, run]
        refine bounded_outcome_bind (bounded_write err p "<code>" false) ?_
        intro p1 h1
        refine bounded_outcome_bind
          (bounded_write_raw err p1 (escape_html t)) ?_
        intro p2 h2
        refine bounded_outcome_bind (bounded_write err p2 "</code>" false) ?_
        intro p3 h3
        rw [← h1, ← h2, ← h3]
        exact ih rest { p3 with end_newline := false }
      | Html html =>
        simp only [Gen.run, run]
        refine bounded_outcome_bind (bounded_write err p html false) ?_
        intro p1 h1
        rw [← h1]
        exact ih rest p1
      | InlineHtml html =>
        simp only [Gen.run, run]
        refine bounded_outcome_bind (bounded_write err p html false) ?_
        intro p1 h1
        rw [← h1]
        exact ih rest p1
      | SoftBreak =>
        simp only [Gen.run, run]
        refine bounded_outcome_bind (bounded_write_newline err p) ?_
        intro p1 h1
        rw [← h1]
        exact ih rest p1
      | HardBreak =>
        simp only [Gen.run, run]
        refine bounded_outcome_bind (bounded_write err p "<br />" true) ?_
        intro p1 h1
        rw [← h1]
        exact ih rest p1
      | FootnoteReference name =>
        simp only [Gen.run, run]
        refine bounded_outcome_bind
          (bounded_write err p
            "<sup class=\"footnote-reference\"><a href=\"#" false) ?_
        intro p1 h1
        refine bounded_outcome_bind
          (bounded_write_raw err p1 (escape_html name)) ?_
        intro p2 h2
        refine bounded_outcome_bind (bounded_write err p2 "\">" false) ?_
        intro p3 h3
        rw [← h1, ← h2, ← h3]
        simp only [strip_numbers]
        refine bounded_outcome_bind
          (bounded_write_raw err
            { p3 with numbers := (lookupOrInsert name p3.numbers).2 }
            (Nat.repr (lookupOrInsert name p3.numbers).1)) ?_
        intro p4 h4
        refine bounded_outcome_bind (bounded_write err p4 "</a></sup>" false) ?_
        intro p5 h5
        have hs4 : ({ strip p3 with
            numbers := (lookupOrInsert name p3.numbers).2 } : HtmlState String)
            = strip { p3 with
              numbers := (lookupOrInsert name p3.numbers).2 } := rfl
        rw [hs4, ← h4, ← h5]
        exact ih rest p5
      | TaskListMarker checked =>
        cases checked with
        | true =>
          simp only [Gen.run, run]
          refine bounded_outcome_bind
            (bounded_write err p
              "<input disabled=\"\" type=\"checkbox\" checked=\"\"/>" true) ?_
          intro p1 h1
          rw [← h1]
          exact ih rest p1
        | false =>
          simp only [Gen.run, run]
          refine bounded_outcome_bind
            (bounded_write err p "<input disabled=\"\" type=\"checkbox\"/>"
              true) ?_
          intro p1 h1
          rw [← h1]
          exact ih rest p1

/-- Claim C8: rendering into the in-memory growable text buffer succeeds for
every event stream, every fuel and every initial state — the generic engine
returns `ok` of exactly the pure render — and every write that fails
propagates its I/O error immediately and unconditionally to the caller of the
render: over a sink whose first `budget` writes succeed and whose next write
fails with `err` (the budget, and hence the position of the failing write
within the pass and the handler arm it occurs in, being arbitrary), the
render either aborts with exactly `err`, the sink's error unchanged, or
succeeds having never exhausted the budget, in which case its output is
byte-for-byte the pure String-sink render — so no failing write anywhere in
the pass can be silently swallowed. -/
theorem claim_C8_error_propagation :
    (∀ (ε : Type) (fuel : Nat) (evts : List Event) (st : HtmlState String),
      Gen.run (Gen.stringSink ε) fuel evts st = Except.ok (run fuel evts st)) ∧
    (∀ (ε : Type) (err : ε) (fuel : Nat) (evts : List Event)
      (p : HtmlState (Nat × String)),
      Gen.run (Gen.boundedSink err) fuel evts p = Except.error err ∨
      ∃ p2, Gen.run (Gen.boundedSink err) fuel evts p = Except.ok p2 ∧
        strip p2 = run fuel evts (strip p)) := by
  constructor
  · exact fun ε => run_string_eq ε
  · intro ε err fuel evts p
    exact bounded_run err fuel evts p

end PulldownHtml
